import Mathlib

/-!
Verification development for the perceive → fuse → decide pipeline:

* `AssignmentModel` — shallow embedding of `assignment_model/engine.py`
  and `assignment_model/models.py` (agent/target state tables, the v1
  greedy and v2 anti-thrash assignment algorithms, `_apply_assignments`).
* `Fusion` — shallow embedding of `fusion/fusion_engine.py`,
  `fusion/projection.py`, `fusion/distance.py` and
  `fusion/camera_estimator.py`.

Modelling conventions, used throughout:

* Python `float` values are embedded as real numbers `ℝ`; `int` image
  dimensions are embedded as reals as well (every call site passes an
  integral value, on which Python `int(...)` is the identity).
* A Python `dict` is embedded as an association list `List (κ × ν)`
  carried in insertion order; a well-formed dict has pairwise distinct
  keys (`List.Nodup` of the key column), which every state reachable
  through the engines satisfies.  `dictGet` is `d[k]`/`d.get(k)`,
  `dictInsert` is `d[k] = v` (replace the existing entry, else append).
* `collections.defaultdict(int)` is embedded as a total function
  `κ → Nat` that is `0` outside its support.
* Python's stable `sorted(xs, key=f)` is embedded as the stable
  insertion sort `sortByKey f` (extensionally equal for real keys).
* A raised exception that the source does not catch is embedded as
  `Except.error`; `Option` is used where the source returns `None`.
* Truthiness tests on `Optional[str]` values (`if best_agent_id:`)
  are embedded faithfully: both `None` and the empty string `""` are
  falsy in Python.
-/

noncomputable section

/-- Association-list embedding of Python dict lookup `d.get(key)`:
the first entry with the given key wins. -/
def dictGet {κ ν : Type} [DecidableEq κ] : List (κ × ν) → κ → Option ν
  | [], _ => none
  | p :: rest, key => if p.1 = key then some p.2 else dictGet rest key

/-- Association-list embedding of Python dict assignment `d[key] = v`:
replace the entry when the key is present, else append (insertion order). -/
def dictInsert {κ ν : Type} [DecidableEq κ] (l : List (κ × ν)) (key : κ) (v : ν) :
    List (κ × ν) :=
  if (dictGet l key).isSome then
    l.map (fun p => if p.1 = key then (key, v) else p)
  else l ++ [(key, v)]

/-- Stable ascending insertion by a real-valued key: the new element goes
after all existing elements with an equal key, which is exactly the
placement Python's stable `sorted` gives to earlier input elements. -/
def insertAsc {α : Type} (key : α → ℝ) (x : α) : List α → List α
  | [] => [x]
  | y :: ys => if key x ≤ key y then x :: y :: ys else y :: insertAsc key x ys

/-- Embedding of Python's stable `sorted(xs, key=f)` (ascending). -/
def sortByKey {α : Type} (key : α → ℝ) : List α → List α
  | [] => []
  | x :: xs => insertAsc key x (sortByKey key xs)

namespace AssignmentModel

/-- Agent identifiers are Python `str`. -/
abbrev AgentId := String

/-- Target identifiers are Python `int`. -/
abbrev TargetId := Int

/-- `models.Position`. -/
structure Position where
  x : ℝ
  y : ℝ
deriving DecidableEq

/-- `models.Position.distance_to`: Euclidean distance via `math.sqrt`. -/
def Position.distance_to (p other : Position) : ℝ :=
  Real.sqrt ((p.x - other.x) ^ 2 + (p.y - other.y) ^ 2)

/-- `models.Agent`. -/
structure Agent where
  id : AgentId
  position : Position
  current_assignment : Option TargetId := none
  max_assignments : Nat := 1
  last_updated : ℝ := 0
deriving DecidableEq

/-- `models.Target`. -/
structure Target where
  id : TargetId
  position : Position
  confidence : ℝ := 1
  last_seen : ℝ := 0
deriving DecidableEq

/-- `models.Assignment`. -/
structure Assignment where
  target_id : TargetId
  agent_id : AgentId
  distance : ℝ
  timestamp : ℝ
deriving DecidableEq

/-- The mutable state of `engine.AssignmentEngine` (configuration fields of
`__init__` plus the three state tables and the diagnostics history).  The
wall clock `time.time()` is passed to each operation as an explicit `now`. -/
structure Engine where
  algorithm : String := "v2"
  reassign_threshold : ℝ := 1.5
  max_assignments_per_agent : Nat := 1
  stale_target_ttl : ℝ := 5
  agents : List (AgentId × Agent) := []
  targets : List (TargetId × Target) := []
  assignments : List (TargetId × Assignment) := []
  assignment_history : List (ℝ × List (TargetId × AgentId)) := []

/-- `AssignmentEngine.__init__`: stores the four configuration values and
starts with empty state tables.  The source performs no validation. -/
def Engine.init (algorithm : String) (reassign_threshold : ℝ)
    (max_assignments_per_agent : Nat) (stale_target_ttl : ℝ) : Engine :=
  { algorithm := algorithm
    reassign_threshold := reassign_threshold
    max_assignments_per_agent := max_assignments_per_agent
    stale_target_ttl := stale_target_ttl
    agents := []
    targets := []
    assignments := []
    assignment_history := [] }

/-- `AssignmentEngine.active_targets`: only targets seen within
`stale_target_ttl` seconds of `now`. -/
def active_targets (e : Engine) (now : ℝ) : List (TargetId × Target) :=
  e.targets.filter (fun p => now - p.2.last_seen < e.stale_target_ttl)

/-- One row of `AssignmentEngine.compute_distance_matrix`: distance from the
target to every agent, sorted ascending by distance (`sorted(row.items(),
key=lambda kv: kv[1])`, which is stable). -/
def distance_row (e : Engine) (t : Target) : List (AgentId × ℝ) :=
  sortByKey (fun p => p.2)
    (e.agents.map (fun p => (p.1, t.position.distance_to p.2.position)))

/-- `AssignmentEngine.compute_distance_matrix`: a sorted distance row for
every active target. -/
def compute_distance_matrix (e : Engine) (now : ℝ) :
    List (TargetId × List (AgentId × ℝ)) :=
  (active_targets e now).map (fun p => (p.1, distance_row e p.2))

/-- `self.agents[agent_id].max_assignments`, as used inside the assignment
loops.  The keys of a distance row always come from `self.agents`, so the
lookup never fails on a reachable input; `0` makes the capacity guard false
in the impossible case. -/
def capOf (agents : List (AgentId × Agent)) (aid : AgentId) : Nat :=
  match dictGet agents aid with
  | some ag => ag.max_assignments
  | none => 0

/-- `AssignmentEngine._best_available_agent`: first (hence closest, the row
being sorted) agent with spare capacity, skipping `exclude`.  The source
returns `(None, math.inf)` when no agent qualifies; we return `none`. -/
def _best_available_agent (agents : List (AgentId × Agent))
    (load : AgentId → Nat) (exclude : Option AgentId) :
    List (AgentId × ℝ) → Option (AgentId × ℝ)
  | [] => none
  | (aid, d) :: rest =>
    if some aid = exclude then _best_available_agent agents load exclude rest
    else if load aid < capOf agents aid then some (aid, d)
    else _best_available_agent agents load exclude rest

/-- The inner loop of `_assign_v1_greedy`: the closest agent whose current
load is below its capacity (`agent_load[agent_id] <
self.agents[agent_id].max_assignments`). -/
def v1_first_fit (agents : List (AgentId × Agent)) (load : AgentId → Nat) :
    List (AgentId × ℝ) → Option (AgentId × ℝ)
  | [] => none
  | (aid, d) :: rest =>
    if load aid < capOf agents aid then some (aid, d)
    else v1_first_fit agents load rest

/-- The body of the per-target loop of `_assign_v1_greedy`, acting on the
pair (new_assignments, agent_load). -/
def v1_step (e : Engine) (now : ℝ)
    (matrix : List (TargetId × List (AgentId × ℝ)))
    (st : List (TargetId × Assignment) × (AgentId → Nat)) (target : Target) :
    List (TargetId × Assignment) × (AgentId → Nat) :=
  let distances := (dictGet matrix target.id).getD []
  match v1_first_fit e.agents st.2 distances with
  | some (aid, d) =>
      (dictInsert st.1 target.id ⟨target.id, aid, d, now⟩,
       Function.update st.2 aid (st.2 aid + 1))
  | none => st

/-- `AssignmentEngine._apply_assignments`: clear every agent pointer, replace
the assignment table, then set `agents[a].current_assignment = t` for each
`(t, assignment)` with `assignment.agent_id` present in the agent table
(later entries overwrite earlier ones), and append a history record. -/
def _apply_assignments (e : Engine) (now : ℝ)
    (new_assignments : List (TargetId × Assignment)) : Engine :=
  let cleared := e.agents.map (fun p => (p.1, { p.2 with current_assignment := none }))
  let agents2 := new_assignments.foldl
    (fun acc q =>
      acc.map (fun p =>
        if p.1 = q.2.agent_id then (p.1, { p.2 with current_assignment := some q.1 })
        else p))
    cleared
  { e with
    agents := agents2
    assignments := new_assignments
    assignment_history :=
      e.assignment_history ++ [(now, new_assignments.map (fun q => (q.1, q.2.agent_id)))] }

/-- `AssignmentEngine._assign_v1_greedy`: greedy nearest-agent assignment,
highest-confidence targets first, then `_apply_assignments`.  The Python
method mutates `self` and returns the assignment list; we return the updated
engine, whose `assignments` table is that list. -/
def _assign_v1_greedy (e : Engine) (now : ℝ) : Engine :=
  let matrix := compute_distance_matrix e now
  let sorted_targets :=
    sortByKey (fun t => -t.confidence) ((active_targets e now).map Prod.snd)
  let res := sorted_targets.foldl (v1_step e now matrix) ([], fun _ => 0)
  _apply_assignments e now res.1

/-- The seeding loop of `_assign_v2_antithrash`: count existing agent load,
restricted to assignments whose target is still active. -/
def seed_load (e : Engine) (now : ℝ) : AgentId → Nat :=
  e.assignments.foldl
    (fun load q =>
      if (dictGet (active_targets e now) q.2.target_id).isSome then
        Function.update load q.2.agent_id (load q.2.agent_id + 1)
      else load)
    (fun _ => 0)

/-- The body of the per-target loop of `_assign_v2_antithrash`.  Notes on
fidelity:

* `if current and current.agent_id in self.agents` — a dataclass instance
  is always truthy, so this is `current ≠ None ∧` key membership.
* `distances.get(current.agent_id, math.inf)` — on this branch the
  incumbent is a key of its row (the row lists every agent id), so the
  `math.inf` default is unreachable; the `getD 0` default is likewise
  unreachable and only keeps the definition total.
* `if best_agent_id and improvement > self.reassign_threshold` — Python
  truthiness: `None` and `""` are both falsy, so a best agent whose id is
  the empty string never triggers a reassignment.
* `max(0, agent_load[current_agent_id] - 1)` is truncated subtraction. -/
def v2_step (e : Engine) (now : ℝ)
    (matrix : List (TargetId × List (AgentId × ℝ)))
    (st : List (TargetId × Assignment) × (AgentId → Nat)) (target : Target) :
    List (TargetId × Assignment) × (AgentId → Nat) :=
  let distances := (dictGet matrix target.id).getD []
  let fresh : List (TargetId × Assignment) × (AgentId → Nat) :=
    match _best_available_agent e.agents st.2 none distances with
    | some (best_agent_id, best_dist) =>
        if best_agent_id ≠ "" then
          (dictInsert st.1 target.id ⟨target.id, best_agent_id, best_dist, now⟩,
           Function.update st.2 best_agent_id (st.2 best_agent_id + 1))
        else st
    | none => st
  match dictGet e.assignments target.id with
  | some current =>
    if (dictGet e.agents current.agent_id).isSome then
      let existing_dist := (dictGet distances current.agent_id).getD 0
      let keep : List (TargetId × Assignment) × (AgentId → Nat) :=
        (dictInsert st.1 target.id ⟨target.id, current.agent_id, existing_dist, now⟩,
         Function.update st.2 current.agent_id (st.2 current.agent_id + 1))
      match _best_available_agent e.agents st.2 (some current.agent_id) distances with
      | some (best_agent_id, best_dist) =>
          if best_agent_id ≠ "" ∧ existing_dist - best_dist > e.reassign_threshold then
            let load1 := Function.update st.2 current.agent_id (st.2 current.agent_id - 1)
            (dictInsert st.1 target.id ⟨target.id, best_agent_id, best_dist, now⟩,
             Function.update load1 best_agent_id (load1 best_agent_id + 1))
          else keep
      | none => keep
    else fresh
  | none => fresh

/-- The confidence-descending processing order of both algorithms:
`sorted(active.values(), key=lambda t: -t.confidence)`. -/
def sorted_active (e : Engine) (now : ℝ) : List Target :=
  sortByKey (fun t => -t.confidence) ((active_targets e now).map Prod.snd)

/-- `AssignmentEngine._assign_v2_antithrash`: anti-thrash assignment with
hysteresis and per-agent capacity, then `_apply_assignments`. -/
def _assign_v2_antithrash (e : Engine) (now : ℝ) : Engine :=
  let matrix := compute_distance_matrix e now
  let res := (sorted_active e now).foldl (v2_step e now matrix) ([], seed_load e now)
  _apply_assignments e now res.1

/-- The number of Assignment records of a table that name a given agent id
(how often the agent appears as `agent_id`). -/
def agent_count (l : List (TargetId × Assignment)) (a : AgentId) : Nat :=
  l.countP (fun q => decide ((q.2 : Assignment).agent_id = a))

/-- The number of targets of a list whose id has an existing assignment
record naming agent `a` — the seed credit still owed to `a` by the targets
not yet processed in a v2 run. -/
def remSeed (e : Engine) (ts : List Target) (a : AgentId) : Nat :=
  ts.countP (fun tg =>
    match dictGet e.assignments (tg : Target).id with
    | some cur => decide ((cur : Assignment).agent_id = a)
    | none => false)

/-- Well-formedness of the dict embedding, true of every state the engine
API can reach: distinct keys in each table, and each table entry's own id
field agreeing with its key. -/
structure WF (e : Engine) : Prop where
  agents_nodup : (e.agents.map Prod.fst).Nodup
  targets_nodup : (e.targets.map Prod.fst).Nodup
  assignments_nodup : (e.assignments.map Prod.fst).Nodup
  agents_id : ∀ p ∈ e.agents, (p.2 : Agent).id = p.1
  targets_id : ∀ p ∈ e.targets, (p.2 : Target).id = p.1
  assignments_id : ∀ p ∈ e.assignments, (p.2 : Assignment).target_id = p.1

end AssignmentModel

namespace Fusion

/-- `distance.DEFAULT_IMAGE_WIDTH` (also `projection.DEFAULT_IMAGE_WIDTH`). -/
def DEFAULT_IMAGE_WIDTH : ℝ := 640

/-- `distance.DEFAULT_IMAGE_HEIGHT` (also `projection.DEFAULT_IMAGE_HEIGHT`). -/
def DEFAULT_IMAGE_HEIGHT : ℝ := 480

/-- `distance.DEFAULT_HFOV_DEG`. -/
def DEFAULT_HFOV_DEG : ℝ := 60

/-- `distance.DEFAULT_PERSON_HEIGHT_M`. -/
def DEFAULT_PERSON_HEIGHT_M : ℝ := 1.7

/-- `math.radians`. -/
def radians (deg : ℝ) : ℝ := deg * Real.pi / 180

/-- `math.degrees`. -/
def degrees (rad : ℝ) : ℝ := rad * 180 / Real.pi

/-- `math.atan2 y x`: the angle of the point `(x, y)` in `(-π, π]`, with
`atan2 0 0 = 0` as in CPython. -/
def atan2 (y x : ℝ) : ℝ :=
  if 0 < x then Real.arctan (y / x)
  else if x < 0 then
    (if 0 ≤ y then Real.arctan (y / x) + Real.pi else Real.arctan (y / x) - Real.pi)
  else
    (if 0 < y then Real.pi / 2 else if y < 0 then -(Real.pi / 2) else 0)

/-- Python's float modulo `a % b` for `b > 0`: the representative of
`a` modulo `b` lying in `[0, b)`.  Both engines only use it with the
positive moduli `2π` and `360`. -/
def pymod (a b : ℝ) : ℝ := a - b * ⌊a / b⌋

/-- A detection bounding box `[x1, y1, x2, y2]` in image pixels.  The source
passes these as 4-element lists; the record fixes the arity the code
unpacks. -/
structure Bbox where
  x1 : ℝ
  y1 : ℝ
  x2 : ℝ
  y2 : ℝ
deriving DecidableEq

/-- `distance.focal_length_px`: horizontal focal length in pixels. -/
def focal_length_px (image_width hfov_deg : ℝ) : ℝ :=
  image_width / (2 * Real.tan (radians hfov_deg / 2))

/-- `distance.focal_length_px_vertical`: vertical focal length derived from
the horizontal FOV and the aspect ratio. -/
def focal_length_px_vertical (image_width image_height hfov_deg : ℝ) : ℝ :=
  image_height / (2 * (Real.tan (radians hfov_deg / 2) * (image_height / image_width)))

/-- `distance.distance_from_bbox`: distance and uncertainty from a bbox.
The bbox height is floored at 1 px (`max(abs(y2 - y1), 1.0)`), so the
division is never by zero. -/
def distance_from_bbox (bbox : Bbox) (person_height_m : ℝ) (focal_px : Option ℝ)
    (image_width image_height hfov_deg : ℝ) : ℝ × ℝ :=
  let bbox_height_px := max |bbox.y2 - bbox.y1| 1
  let f := focal_px.getD (focal_length_px_vertical image_width image_height hfov_deg)
  let distance_m := person_height_m * f / bbox_height_px
  (distance_m, distance_m * 0.15 + 0.3)

/-- `camera_estimator.CameraConfig`. -/
structure CameraConfig where
  camera_id : String
  x : ℝ
  y : ℝ
  heading_deg : ℝ
  hfov_deg : ℝ := DEFAULT_HFOV_DEG
  image_width : ℝ := DEFAULT_IMAGE_WIDTH
  image_height : ℝ := DEFAULT_IMAGE_HEIGHT

/-- `camera_estimator.PositionEstimate`. -/
structure PositionEstimate where
  world_x : ℝ
  world_y : ℝ
  distance_m : ℝ
  uncertainty_m : ℝ
  bearing_deg : ℝ
  angle_in_fov_deg : ℝ
  bbox : Bbox
  camera_id : String

/-- `camera_estimator.estimate_position`: camera config + bounding box to
world position (distance from bbox height, angle offset
`atan2(-offset_px, f_h)`, bearing = heading + offset, polar projection). -/
def estimate_position (camera : CameraConfig) (bbox : Bbox)
    (person_height_m : ℝ) : PositionEstimate :=
  let dm := distance_from_bbox bbox person_height_m none
    camera.image_width camera.image_height camera.hfov_deg
  let bbox_cx := (bbox.x1 + bbox.x2) / 2
  let center_x := camera.image_width / 2
  let offset_px := bbox_cx - center_x
  let f_h := focal_length_px camera.image_width camera.hfov_deg
  let angle_offset_rad := atan2 (-offset_px) f_h
  let heading_rad := radians camera.heading_deg
  let world_bearing_rad := heading_rad + angle_offset_rad
  { world_x := camera.x + dm.1 * Real.cos world_bearing_rad
    world_y := camera.y + dm.1 * Real.sin world_bearing_rad
    distance_m := dm.1
    uncertainty_m := dm.2
    bearing_deg := pymod (degrees world_bearing_rad) 360
    angle_in_fov_deg := degrees angle_offset_rad
    bbox := bbox
    camera_id := camera.camera_id }

/-- `camera_estimator.is_in_fov`: range gate then angle gate, the angle
difference wrapped to `[-π, π]` via `(diff + π) % (2π) - π`. -/
def is_in_fov (camera : CameraConfig) (world_x world_y max_range : ℝ) : Bool :=
  let dx := world_x - camera.x
  let dy := world_y - camera.y
  let dist := Real.sqrt (dx * dx + dy * dy)
  if dist > max_range then false
  else if dist < 1e-6 then true
  else
    let angle_to_target := atan2 dy dx
    let heading_rad := radians camera.heading_deg
    let diff := pymod (angle_to_target - heading_rad + Real.pi) (2 * Real.pi) - Real.pi
    let half_fov := radians (camera.hfov_deg / 2)
    decide (|diff| ≤ half_fov)

/-- `camera_estimator.world_to_bbox`: the inverse projection.  `none` when
the point is outside the FOV (the source's `max_range` default of `8.0` is
used, as at the call); the distance is clamped below at `0.1`. -/
def world_to_bbox (camera : CameraConfig) (world_x world_y person_height_m : ℝ) :
    Option Bbox :=
  if is_in_fov camera world_x world_y 8 then
    let dx := world_x - camera.x
    let dy := world_y - camera.y
    let dist0 := Real.sqrt (dx * dx + dy * dy)
    let dist_m := if dist0 < 0.1 then 0.1 else dist0
    let world_angle := atan2 dy dx
    let heading_rad := radians camera.heading_deg
    let angle_offset := pymod (world_angle - heading_rad + Real.pi) (2 * Real.pi) - Real.pi
    let f_h := focal_length_px camera.image_width camera.hfov_deg
    let f_v := focal_length_px_vertical camera.image_width camera.image_height camera.hfov_deg
    let offset_px := -f_h * Real.tan angle_offset
    let center_x := camera.image_width / 2 + offset_px
    let center_y := camera.image_height / 2
    let height_px := person_height_m * f_v / dist_m
    let width_px := height_px * 0.4
    some ⟨center_x - width_px / 2, center_y - height_px / 2,
          center_x + width_px / 2, center_y + height_px / 2⟩
  else none

/-- `projection.bbox_center`. -/
def bbox_center (b : Bbox) : ℝ × ℝ := ((b.x1 + b.x2) / 2, (b.y1 + b.y2) / 2)

/-- `projection.image_offset_to_angle_rad`: horizontal angle from the
optical axis to the bbox center, `atan2(offset_px, focal_px)` with
positive offset to the right of center.  (`int(image_width)` in the source
is the identity on the integral widths every caller passes.) -/
def image_offset_to_angle_rad (bbox : Bbox) (image_width : ℝ)
    (focal_px : Option ℝ) : ℝ :=
  let cx_img := (bbox_center bbox).1
  let center_x := image_width / 2
  let offset_px := cx_img - center_x
  let f := focal_px.getD (focal_length_px image_width DEFAULT_HFOV_DEG)
  atan2 offset_px f

/-- `schemas.CameraState` (`position` is the 2-element list `[x, y]`). -/
structure CameraState where
  agent_id : String
  position : ℝ × ℝ
  heading : ℝ
  timestamp : ℝ

/-- `schemas.TrackDetection`. -/
structure TrackDetection where
  track_id : Int
  bbox : Bbox
  confidence : ℝ

/-- `schemas.CameraFrame`. -/
structure CameraFrame where
  camera_id : String
  timestamp : ℝ
  tracks : List TrackDetection

/-- `schemas.GlobalTrack` (the debug-only `history` field is omitted; no
code under fusion reads or writes it). -/
structure GlobalTrack where
  id : Int
  position : ℝ × ℝ
  confidence : ℝ
  last_seen : ℝ
  source_cameras : List String

/-- `projection.project_detection_to_world`: distance from bbox height,
angle from horizontal offset, polar projection from the camera pose.
Returns `(world_x, world_y, confidence)`. -/
def project_detection_to_world (detection : TrackDetection)
    (camera : CameraState) (image_width image_height : ℝ) : ℝ × ℝ × ℝ :=
  let distance_m := (distance_from_bbox detection.bbox DEFAULT_PERSON_HEIGHT_M none
    image_width image_height DEFAULT_HFOV_DEG).1
  let angle_offset := image_offset_to_angle_rad detection.bbox image_width none
  let heading_rad := radians camera.heading
  let world_angle := heading_rad + angle_offset
  (camera.position.1 + distance_m * Real.cos world_angle,
   camera.position.2 + distance_m * Real.sin world_angle,
   detection.confidence)

/-- `fusion_engine._dist`: Euclidean distance between two world points. -/
def _dist (world_a world_b : ℝ × ℝ) : ℝ :=
  Real.sqrt ((world_a.1 - world_b.1) ^ 2 + (world_a.2 - world_b.2) ^ 2)

/-- The state of `fusion_engine.FusionEngine`. -/
structure FusionEngine where
  match_radius_m : ℝ := 3
  track_ttl_sec : ℝ := 5
  global_tracks : List (Int × GlobalTrack) := []
  next_global_id : Int := 1
  camera_states : List (String × CameraState) := []

/-- `FusionEngine.__init__`: stores the two configuration values verbatim
(the source performs no validation) and starts from the empty state. -/
def FusionEngine.init (match_radius_m track_ttl_sec : ℝ) : FusionEngine :=
  { match_radius_m := match_radius_m
    track_ttl_sec := track_ttl_sec
    global_tracks := []
    next_global_id := 1
    camera_states := [] }

/-- `FusionEngine.update_camera_state`. -/
def update_camera_state (e : FusionEngine) (state : CameraState) : FusionEngine :=
  { e with camera_states := dictInsert e.camera_states state.agent_id state }

/-- `FusionEngine.get_camera_state`. -/
def get_camera_state (e : FusionEngine) (camera_id : String) : Option CameraState :=
  dictGet e.camera_states camera_id

/-- One projected candidate `(wx, wy, conf, camera_id)` of `process_frame`. -/
structure Candidate where
  wx : ℝ
  wy : ℝ
  conf : ℝ
  cam_id : String

/-- The inner scan of the matching loop of `process_frame`: closest
not-yet-used track strictly within the current best distance, which starts
at `match_radius_m`.  Returns `(best_id, best_dist)`. -/
def find_best (tracks : List (Int × GlobalTrack)) (used : List Int)
    (radius : ℝ) (pos : ℝ × ℝ) : Option Int × ℝ :=
  tracks.foldl
    (fun best p =>
      if p.1 ∈ used then best
      else if _dist p.2.position pos < best.2 then (some p.1, _dist p.2.position pos)
      else best)
    (none, radius)

/-- The merge branch of `process_frame`: confidence-weighted average
position, midpoint confidence clamped to `1.0`, refreshed `last_seen`,
source camera recorded.  When both confidences are `0` the source divides
by zero (an uncaught `ZeroDivisionError`); that is the `none` case. -/
def merge_track (gt : GlobalTrack) (wx wy conf now : ℝ) (cam_id : String) :
    Option GlobalTrack :=
  let w_old := gt.confidence
  let w_new := conf
  let total := w_old + w_new
  if total = 0 then none
  else some { gt with
    position := ((gt.position.1 * w_old + wx * w_new) / total,
                 (gt.position.2 * w_old + wy * w_new) / total)
    confidence := min 1 ((gt.confidence + conf) / 2)
    last_seen := now
    source_cameras :=
      if cam_id ∈ gt.source_cameras then gt.source_cameras
      else gt.source_cameras ++ [cam_id] }

/-- The match-or-create loop of `process_frame` over the candidate list,
acting on `(global_tracks, next_global_id)` with the per-frame `used` set.
`.error` propagates the uncaught `ZeroDivisionError` of the merge branch
(the second `.error` case, a `KeyError` on `self._global_tracks[best_id]`,
is unreachable: `find_best` only returns keys of the table). -/
def match_candidates (radius now : ℝ) :
    List Candidate → List (Int × GlobalTrack) → List Int → Int →
    Except Unit (List (Int × GlobalTrack) × Int)
  | [], tracks, _, next => .ok (tracks, next)
  | c :: rest, tracks, used, next =>
    match (find_best tracks used radius (c.wx, c.wy)).1 with
    | some best_id =>
      match dictGet tracks best_id with
      | some gt =>
        match merge_track gt c.wx c.wy c.conf now c.cam_id with
        | some gt2 =>
            match_candidates radius now rest (dictInsert tracks best_id gt2)
              (best_id :: used) next
        | none => .error ()
      | none => .error ()
    | none =>
      match_candidates radius now rest
        (dictInsert tracks next
          { id := next, position := (c.wx, c.wy), confidence := c.conf,
            last_seen := now, source_cameras := [c.cam_id] })
        used (next + 1)

/-- `FusionEngine.process_frame`: drop the frame when no camera pose is
registered; otherwise project every detection, run the matching loop, then
evict every track with `now - last_seen > track_ttl_sec` (strict).  The
per-observation `try/except` of the projection step never fires in the
embedding (projection is total on 4-component bboxes), so the candidate
list is a plain `map`.  `.error` is an uncaught `ZeroDivisionError` from
the merge branch. -/
def process_frame (e : FusionEngine) (frame : CameraFrame) :
    Except Unit FusionEngine :=
  match dictGet e.camera_states frame.camera_id with
  | none => .ok e
  | some camera =>
    let now := frame.timestamp
    let candidates := frame.tracks.map (fun t =>
      let w := project_detection_to_world t camera DEFAULT_IMAGE_WIDTH DEFAULT_IMAGE_HEIGHT
      Candidate.mk w.1 w.2.1 w.2.2 frame.camera_id)
    match match_candidates e.match_radius_m now candidates e.global_tracks []
      e.next_global_id with
    | .error er => .error er
    | .ok (tracks2, next2) =>
      .ok { e with
        global_tracks := tracks2.filter (fun p => ¬(now - p.2.last_seen > e.track_ttl_sec))
        next_global_id := next2 }

/-- `FusionEngine.get_global_tracks`: snapshot of the table's values. -/
def get_global_tracks (e : FusionEngine) : List GlobalTrack :=
  e.global_tracks.map Prod.snd

/-- Well-formedness of the fusion state, true of every reachable state:
the track table has distinct keys, every key is below the id counter, and
each track's `id` field is its key. -/
structure FWF (e : FusionEngine) : Prop where
  tracks_nodup : (e.global_tracks.map Prod.fst).Nodup
  keys_lt : ∀ p ∈ e.global_tracks, (p : Int × GlobalTrack).1 < e.next_global_id
  tracks_id : ∀ p ∈ e.global_tracks, (p : Int × GlobalTrack).2.id = p.1

/-- The horizontal mirror of a bbox in an image of width `w`; used to state
the exact relation between the two forward projectors, which disagree on
the sign convention of the horizontal offset angle. -/
def mirror_bbox (w : ℝ) (b : Bbox) : Bbox :=
  ⟨w - b.x2, b.y1, w - b.x1, b.y2⟩

end Fusion

section Lemmas

@[simp] theorem dictGet_nil {κ ν : Type} [DecidableEq κ] (k : κ) :
    dictGet ([] : List (κ × ν)) k = none := rfl

@[simp] theorem dictGet_cons {κ ν : Type} [DecidableEq κ] (p : κ × ν)
    (l : List (κ × ν)) (k : κ) :
    dictGet (p :: l) k = if p.1 = k then some p.2 else dictGet l k := rfl

theorem dictGet_append_of_none {κ ν : Type} [DecidableEq κ] {l1 : List (κ × ν)}
    (l2 : List (κ × ν)) (k : κ) (h : dictGet l1 k = none) :
    dictGet (l1 ++ l2) k = dictGet l2 k := by
  induction l1 with
  | nil => rfl
  | cons p rest ih =>
    rw [List.cons_append, dictGet_cons]
    rw [dictGet_cons] at h
    by_cases hp : p.1 = k
    · rw [if_pos hp] at h
      exact absurd h (by simp)
    · rw [if_neg hp] at h
      rw [if_neg hp]
      exact ih h

theorem dictGet_append_of_some {κ ν : Type} [DecidableEq κ] {l1 : List (κ × ν)}
    (l2 : List (κ × ν)) {k : κ} {v : ν} (h : dictGet l1 k = some v) :
    dictGet (l1 ++ l2) k = some v := by
  induction l1 with
  | nil => simp at h
  | cons p rest ih =>
    rw [List.cons_append, dictGet_cons]
    rw [dictGet_cons] at h
    by_cases hp : p.1 = k
    · rwa [if_pos hp] at h ⊢
    · rw [if_neg hp] at h
      rw [if_neg hp]
      exact ih h

theorem dictInsert_of_none {κ ν : Type} [DecidableEq κ] {l : List (κ × ν)}
    {k : κ} (v : ν) (h : dictGet l k = none) :
    dictInsert l k v = l ++ [(k, v)] := by
  simp [dictInsert, h]

theorem dictGet_map_replace_self {κ ν : Type} [DecidableEq κ]
    {l : List (κ × ν)} {k : κ} (v : ν) (h : (dictGet l k).isSome = true) :
    dictGet (l.map (fun p => if p.1 = k then (k, v) else p)) k = some v := by
  induction l with
  | nil => simp at h
  | cons p rest ih =>
    by_cases hp : p.1 = k
    · simp [hp]
    · rw [dictGet_cons, if_neg hp] at h
      simpa [hp] using ih h

theorem dictGet_map_replace_ne {κ ν : Type} [DecidableEq κ]
    (l : List (κ × ν)) {k k2 : κ} (v : ν) (h : k ≠ k2) :
    dictGet (l.map (fun p => if p.1 = k then (k, v) else p)) k2 = dictGet l k2 := by
  induction l with
  | nil => rfl
  | cons p rest ih =>
    by_cases hp : p.1 = k
    · have hp2 : ¬(p.1 = k2) := fun hc => h (hp ▸ hc)
      simp [hp, hp2, h, ih]
    · by_cases hp2 : p.1 = k2
      · simp [hp, hp2, Ne.symm h]
      · simp [hp, hp2, ih]

theorem dictGet_dictInsert_self {κ ν : Type} [DecidableEq κ]
    (l : List (κ × ν)) (k : κ) (v : ν) :
    dictGet (dictInsert l k v) k = some v := by
  unfold dictInsert
  by_cases h : (dictGet l k).isSome
  · rw [if_pos h]
    exact dictGet_map_replace_self v h
  · rw [if_neg h]
    rw [Option.not_isSome_iff_eq_none] at h
    rw [dictGet_append_of_none _ _ h]
    simp

theorem dictGet_dictInsert_ne {κ ν : Type} [DecidableEq κ]
    (l : List (κ × ν)) (k k2 : κ) (v : ν) (h : k ≠ k2) :
    dictGet (dictInsert l k v) k2 = dictGet l k2 := by
  unfold dictInsert
  by_cases hs : (dictGet l k).isSome
  · rw [if_pos hs]
    exact dictGet_map_replace_ne l v h
  · rw [if_neg hs]
    cases hv : dictGet l k2 with
    | some w => exact dictGet_append_of_some _ hv
    | none =>
      rw [dictGet_append_of_none _ _ hv]
      simp [h]

theorem mem_of_dictGet_eq_some {κ ν : Type} [DecidableEq κ] {l : List (κ × ν)}
    {k : κ} {v : ν} (h : dictGet l k = some v) : (k, v) ∈ l := by
  induction l with
  | nil => simp at h
  | cons p rest ih =>
    simp only [dictGet_cons] at h
    by_cases hp : p.1 = k
    · simp only [hp, if_true] at h
      have hpv : p = (k, v) := by
        obtain ⟨p1, p2⟩ := p
        simp_all
      rw [← hpv]
      exact List.mem_cons_self _ _
    · simp only [hp, if_false] at h
      exact List.mem_cons_of_mem _ (ih h)

theorem dictGet_eq_some_of_mem {κ ν : Type} [DecidableEq κ] {l : List (κ × ν)}
    {k : κ} {v : ν} (hnd : (l.map Prod.fst).Nodup) (h : (k, v) ∈ l) :
    dictGet l k = some v := by
  induction l with
  | nil => simp at h
  | cons p rest ih =>
    simp only [List.map_cons, List.nodup_cons] at hnd
    rcases List.mem_cons.1 h with h1 | h1
    · simp [← h1]
    · have hp : p.1 ≠ k := by
        intro hk
        exact hnd.1 (hk ▸ (List.mem_map.2 ⟨(k, v), h1, rfl⟩))
      simp only [dictGet_cons, hp, if_false]
      exact ih hnd.2 h1

theorem dictGet_isSome_iff_mem_keys {κ ν : Type} [DecidableEq κ]
    (l : List (κ × ν)) (k : κ) :
    (dictGet l k).isSome = true ↔ k ∈ l.map Prod.fst := by
  induction l with
  | nil => simp
  | cons p rest ih =>
    by_cases hp : p.1 = k
    · simp [hp]
    · simp [hp, ih, Ne.symm hp]

theorem dictGet_map_value {κ ν μ : Type} [DecidableEq κ] (f : ν → μ)
    (l : List (κ × ν)) (k : κ) :
    dictGet (l.map (fun p => (p.1, f p.2))) k = (dictGet l k).map f := by
  induction l with
  | nil => rfl
  | cons p rest ih =>
    by_cases hp : p.1 = k
    · simp [hp]
    · simp [hp, ih]

theorem insertAsc_perm {α : Type} (key : α → ℝ) (x : α) (l : List α) :
    (insertAsc key x l).Perm (x :: l) := by
  induction l with
  | nil => exact List.Perm.refl _
  | cons y ys ih =>
    unfold insertAsc
    by_cases h : key x ≤ key y
    · simp [h]
    · simp only [h, if_false]
      exact ((ih.cons y).trans (List.Perm.swap x y ys))

theorem sortByKey_perm {α : Type} (key : α → ℝ) (l : List α) :
    (sortByKey key l).Perm l := by
  induction l with
  | nil => exact List.Perm.refl _
  | cons x xs ih =>
    exact (insertAsc_perm key x (sortByKey key xs)).trans (ih.cons x)

end Lemmas

section ClaimTheorems

open AssignmentModel Fusion

/-- C10: for every bbox (including degenerate ones with non-positive pixel
height), `distance_from_bbox` divides by the bbox height floored at 1 px —
a strictly positive denominator, so no division by zero — and returns
`distance = person_height_m * vertical_focal_px / max |y2 - y1| 1` together
with `uncertainty = distance * 0.15 + 0.3`; the function is total. -/
theorem distance_from_bbox_floored_formula (bbox : Bbox)
    (person_height_m image_width image_height hfov_deg : ℝ) :
    distance_from_bbox bbox person_height_m none image_width image_height hfov_deg =
      (person_height_m * focal_length_px_vertical image_width image_height hfov_deg /
          max |bbox.y2 - bbox.y1| 1,
        person_height_m * focal_length_px_vertical image_width image_height hfov_deg /
          max |bbox.y2 - bbox.y1| 1 * 0.15 + 0.3) ∧
      0 < max |bbox.y2 - bbox.y1| 1 := by
  exact ⟨rfl, lt_of_lt_of_le one_pos (le_max_right _ _)⟩

/-- C9 counterexample: constructing either engine with non-positive TTLs,
match radius and reassignment threshold succeeds and yields a configured
engine holding exactly those values — nothing fails at construction time. -/
theorem engine_construction_accepts_nonpositive_config :
    (AssignmentModel.Engine.init "v2" (-1) 1 (-2)).reassign_threshold = -1 ∧
    (AssignmentModel.Engine.init "v2" (-1) 1 (-2)).stale_target_ttl = -2 ∧
    (Fusion.FusionEngine.init (-3) 0).match_radius_m = -3 ∧
    (Fusion.FusionEngine.init (-3) 0).track_ttl_sec = 0 :=
  ⟨rfl, rfl, rfl, rfl⟩

/-- C9 (amended): both constructors are total and perform no validation;
every configuration value, non-positive ones included, is stored verbatim
and the engine is returned fully configured. -/
theorem engine_init_stores_config_verbatim (alg : String) (thr : ℝ) (cap : Nat)
    (ttl radius tt : ℝ) :
    (AssignmentModel.Engine.init alg thr cap ttl).algorithm = alg ∧
    (AssignmentModel.Engine.init alg thr cap ttl).reassign_threshold = thr ∧
    (AssignmentModel.Engine.init alg thr cap ttl).max_assignments_per_agent = cap ∧
    (AssignmentModel.Engine.init alg thr cap ttl).stale_target_ttl = ttl ∧
    (Fusion.FusionEngine.init radius tt).match_radius_m = radius ∧
    (Fusion.FusionEngine.init radius tt).track_ttl_sec = tt :=
  ⟨rfl, rfl, rfl, rfl, rfl, rfl⟩

/-- C8: a frame whose `camera_id` has no registered camera pose is silently
dropped: `process_frame` returns normally and the resulting state is the
input state unchanged (same track table, same id counter, same poses). -/
theorem process_frame_unregistered_camera_unchanged (e : FusionEngine)
    (frame : CameraFrame) (h : dictGet e.camera_states frame.camera_id = none) :
    process_frame e frame = .ok e := by
  unfold process_frame
  rw [h]

/-- C8 witness: dropping a frame for an unregistered camera on the empty
engine state. -/
theorem process_frame_unregistered_camera_unchanged_witness :
    process_frame { } { camera_id := "cam", timestamp := 0, tracks := [] } =
      .ok ({ } : FusionEngine) :=
  process_frame_unregistered_camera_unchanged { } _ rfl

end ClaimTheorems

section ClaimC5

open Fusion

/-- C5 (amended): merging a matched candidate into an existing global track,
with old confidence `c1` and candidate confidence `c2` both in `[0,1]` and
not both zero (when both are zero the merge divides by zero and
`process_frame` raises an uncaught `ZeroDivisionError` instead of producing
a track), yields a confidence between `min c1 c2` and `max c1 c2` (midpoint
clamped to `1.0`) and a position on the straight segment between the old
track position and the candidate position. -/
theorem merge_track_confidence_bounds_and_segment (gt : GlobalTrack)
    (wx wy conf now : ℝ) (cam : String)
    (h1 : 0 ≤ gt.confidence) (h2 : gt.confidence ≤ 1)
    (h3 : 0 ≤ conf) (h4 : conf ≤ 1) (hpos : 0 < gt.confidence + conf) :
    ∃ gt2, merge_track gt wx wy conf now cam = some gt2 ∧
      min gt.confidence conf ≤ gt2.confidence ∧
      gt2.confidence ≤ max gt.confidence conf ∧
      ∃ s, 0 ≤ s ∧ s ≤ 1 ∧
        gt2.position.1 = gt.position.1 + s * (wx - gt.position.1) ∧
        gt2.position.2 = gt.position.2 + s * (wy - gt.position.2) := by
  have hne : gt.confidence + conf ≠ 0 := ne_of_gt hpos
  unfold merge_track
  rw [if_neg hne]
  refine ⟨_, rfl, ?_, ?_, conf / (gt.confidence + conf), ?_, ?_, ?_, ?_⟩
  · rcases le_total gt.confidence conf with hc | hc
    · rw [min_eq_left hc]
      apply le_min (by linarith)
      linarith
    · rw [min_eq_right hc]
      apply le_min (by linarith)
      linarith
  · rcases le_total gt.confidence conf with hc | hc
    · rw [max_eq_right hc]
      exact le_trans (min_le_right _ _) (by linarith)
    · rw [max_eq_left hc]
      exact le_trans (min_le_right _ _) (by linarith)
  · exact div_nonneg h3 hpos.le
  · rw [div_le_one hpos]
    linarith
  · show (gt.position.1 * gt.confidence + wx * conf) / (gt.confidence + conf) = _
    field_simp
    ring
  · show (gt.position.2 * gt.confidence + wy * conf) / (gt.confidence + conf) = _
    field_simp
    ring

/-- C5 witness: merging a candidate at `(2, 0)` with confidence `1/2` into a
track at `(0, 0)` with confidence `1/2`. -/
theorem merge_track_confidence_bounds_and_segment_witness :
    ∃ gt2,
      merge_track
        { id := 1, position := (0, 0), confidence := 1/2, last_seen := 0,
          source_cameras := [] } 2 0 (1/2) 7 "c" = some gt2 ∧
      min (1/2 : ℝ) (1/2) ≤ gt2.confidence ∧
      gt2.confidence ≤ max (1/2 : ℝ) (1/2) ∧
      ∃ s, 0 ≤ s ∧ s ≤ 1 ∧
        gt2.position.1 = 0 + s * (2 - 0) ∧
        gt2.position.2 = 0 + s * (0 - 0) :=
  merge_track_confidence_bounds_and_segment
    { id := 1, position := (0, 0), confidence := 1/2, last_seen := 0,
      source_cameras := [] } 2 0 (1/2) 7 "c"
    (by norm_num) (by norm_num) (by norm_num) (by norm_num) (by norm_num)

end ClaimC5

section TrigHelpers

open Fusion

theorem radians_sixty_half : radians 60 / 2 = Real.pi / 6 := by
  unfold radians
  ring

theorem tan_radians_sixty_half : Real.tan (radians 60 / 2) = 1 / Real.sqrt 3 := by
  rw [radians_sixty_half, Real.tan_pi_div_six]

theorem sqrt_three_pos : (0 : ℝ) < Real.sqrt 3 := Real.sqrt_pos.2 (by norm_num)

theorem focal_h_default : focal_length_px 640 60 = 320 * Real.sqrt 3 := by
  have h3 : Real.sqrt 3 ≠ 0 := ne_of_gt sqrt_three_pos
  unfold focal_length_px
  rw [tan_radians_sixty_half]
  field_simp
  ring

theorem focal_v_default : focal_length_px_vertical 640 480 60 = 320 * Real.sqrt 3 := by
  have h3 : Real.sqrt 3 ≠ 0 := ne_of_gt sqrt_three_pos
  unfold focal_length_px_vertical
  rw [tan_radians_sixty_half]
  field_simp
  ring

theorem radians_zero : radians 0 = 0 := by
  unfold radians
  ring

theorem atan2_of_pos (y x : ℝ) (hx : 0 < x) : atan2 y x = Real.arctan (y / x) := by
  unfold atan2
  rw [if_pos hx]

theorem atan2_zero_of_pos (x : ℝ) (hx : 0 < x) : atan2 0 x = 0 := by
  rw [atan2_of_pos _ _ hx]
  simp

end TrigHelpers

section ClaimC7

open Fusion

/-- C7 counterexample: with the default FOV and image size, the two forward
projectors disagree on a concrete off-centre detection (bbox centred one
horizontal focal length to the right of the image centre, seen by a camera
at the origin heading along +x): `project_detection_to_world` places the
target at world angle `+π/4` while `estimate_position` places it at `-π/4`,
so the estimated world `y` coordinates differ. -/
theorem projectors_disagree_off_center :
    (estimate_position { camera_id := "c", x := 0, y := 0, heading_deg := 0 }
        { x1 := 320, y1 := 0, x2 := 320 + 640 * Real.sqrt 3, y2 := 100 }
        DEFAULT_PERSON_HEIGHT_M).world_y ≠
      (project_detection_to_world
        { track_id := 1,
          bbox := { x1 := 320, y1 := 0, x2 := 320 + 640 * Real.sqrt 3, y2 := 100 },
          confidence := 1 }
        { agent_id := "c", position := (0, 0), heading := 0, timestamp := 0 }
        DEFAULT_IMAGE_WIDTH DEFAULT_IMAGE_HEIGHT).2.1 := by
  have hfh : (0 : ℝ) < 320 * Real.sqrt 3 := by positivity
  have hfh' : (320 : ℝ) * Real.sqrt 3 ≠ 0 := ne_of_gt hfh
  have harg : (((320 : ℝ) + (320 + 640 * Real.sqrt 3)) / 2 - 640 / 2) = 320 * Real.sqrt 3 := by
    ring
  have hD : (0 : ℝ) <
      (distance_from_bbox
        { x1 := 320, y1 := 0, x2 := 320 + 640 * Real.sqrt 3, y2 := 100 }
        (1.7 : ℝ) none 640 480 60).1 := by
    unfold distance_from_bbox
    simp only [Option.getD]
    rw [focal_v_default]
    have hmax : max |(100 : ℝ) - 0| 1 = 100 := by
      rw [max_eq_left]
      · norm_num
      · rw [abs_of_nonneg] <;> norm_num
    rw [hmax]
    positivity
  unfold estimate_position project_detection_to_world image_offset_to_angle_rad
    bbox_center
  simp only [Option.getD]
  unfold DEFAULT_IMAGE_WIDTH DEFAULT_IMAGE_HEIGHT DEFAULT_HFOV_DEG
    DEFAULT_PERSON_HEIGHT_M
  rw [focal_h_default]
  rw [show ((320 : ℝ) + (320 + 640 * Real.sqrt 3)) / 2 - 640 / 2 = 320 * Real.sqrt 3 from harg]
  rw [atan2_of_pos _ _ hfh, atan2_of_pos _ _ hfh]
  rw [show (-(320 * Real.sqrt 3)) / (320 * Real.sqrt 3) = -1 by field_simp]
  rw [show (320 * Real.sqrt 3) / (320 * Real.sqrt 3) = 1 by field_simp]
  rw [Real.arctan_neg, Real.arctan_one, radians_zero]
  rw [zero_add, zero_add, zero_add, zero_add]
  rw [Real.sin_neg, Real.sin_pi_div_four]
  intro hcontra
  set D := (distance_from_bbox
    { x1 := 320, y1 := 0, x2 := 320 + 640 * Real.sqrt 3, y2 := 100 }
    (1.7 : ℝ) none 640 480 60).1 with hDdef
  have hD2 : (0 : ℝ) < D := hDdef ▸ hD
  have hs2 : (0 : ℝ) < Real.sqrt 2 / 2 := by positivity
  nlinarith [hcontra, hD2, hs2, mul_pos hD2 hs2]

/-- C7 (amended): the two forward projectors share the distance model but
use opposite sign conventions for the horizontal offset angle
(`atan2(offset, f)` in `projection.py` versus `atan2(-offset, f)` in
`camera_estimator.py`).  Consequently `estimate_position` (with the default
FOV and image size) applied to the horizontally mirrored bbox computes
exactly the world position `project_detection_to_world` computes for the
original detection; the two agree on the same detection only when the bbox
is horizontally centred. -/
theorem projectors_agree_up_to_mirror (det : TrackDetection) (cam : CameraState) :
    (estimate_position
        { camera_id := cam.agent_id, x := cam.position.1, y := cam.position.2,
          heading_deg := cam.heading }
        (mirror_bbox DEFAULT_IMAGE_WIDTH det.bbox) DEFAULT_PERSON_HEIGHT_M).world_x =
      (project_detection_to_world det cam DEFAULT_IMAGE_WIDTH DEFAULT_IMAGE_HEIGHT).1 ∧
    (estimate_position
        { camera_id := cam.agent_id, x := cam.position.1, y := cam.position.2,
          heading_deg := cam.heading }
        (mirror_bbox DEFAULT_IMAGE_WIDTH det.bbox) DEFAULT_PERSON_HEIGHT_M).world_y =
      (project_detection_to_world det cam DEFAULT_IMAGE_WIDTH DEFAULT_IMAGE_HEIGHT).2.1 ∧
    (estimate_position
        { camera_id := cam.agent_id, x := cam.position.1, y := cam.position.2,
          heading_deg := cam.heading }
        (mirror_bbox DEFAULT_IMAGE_WIDTH det.bbox) DEFAULT_PERSON_HEIGHT_M).distance_m =
      (distance_from_bbox det.bbox DEFAULT_PERSON_HEIGHT_M none DEFAULT_IMAGE_WIDTH
        DEFAULT_IMAGE_HEIGHT DEFAULT_HFOV_DEG).1 := by
  unfold estimate_position project_detection_to_world image_offset_to_angle_rad
    bbox_center mirror_bbox distance_from_bbox
  simp only [Option.getD]
  have harg :
      -((DEFAULT_IMAGE_WIDTH - det.bbox.x2 + (DEFAULT_IMAGE_WIDTH - det.bbox.x1)) / 2 -
          DEFAULT_IMAGE_WIDTH / 2) =
        (det.bbox.x1 + det.bbox.x2) / 2 - DEFAULT_IMAGE_WIDTH / 2 := by
    ring
  rw [harg]
  exact ⟨rfl, rfl, trivial⟩

end ClaimC7

section ClaimC5CE

open Fusion

/-- C5 counterexample: a matched candidate with confidence `0` (in `[0,1]`)
meeting a track with confidence `0` (in `[0,1]`) does not produce a merged
track at all — the weighted average divides by zero and `process_frame`
raises an uncaught `ZeroDivisionError` (`.error`).  The camera at the origin
heading along +x sees a centred detection whose bbox height puts it exactly
at the stored track position `(2, 0)`. -/
theorem process_frame_zero_confidence_merge_raises :
    process_frame
      { match_radius_m := 3
        track_ttl_sec := 5
        global_tracks := [(1,
          { id := 1
            position := (2, 0)
            confidence := 0
            last_seen := 0
            source_cameras := ["c"] })]
        next_global_id := 2
        camera_states := [("c",
          { agent_id := "c"
            position := (0, 0)
            heading := 0
            timestamp := 0 })] }
      { camera_id := "c"
        timestamp := 1
        tracks := [{ track_id := 5
                     bbox := { x1 := 300
                               y1 := 0
                               x2 := 340
                               y2 := 272 * Real.sqrt 3 }
                     confidence := 0 }] } = .error () := by
  have h13 : (1 : ℝ) ≤ Real.sqrt 3 := by
    rw [show (1 : ℝ) = Real.sqrt 1 from (Real.sqrt_one).symm]
    exact Real.sqrt_le_sqrt (by norm_num)
  have hproj : project_detection_to_world
      { track_id := 5
        bbox := { x1 := 300
                  y1 := 0
                  x2 := 340
                  y2 := 272 * Real.sqrt 3 }
        confidence := 0 }
      { agent_id := "c"
        position := (0, 0)
        heading := 0
        timestamp := 0 }
      DEFAULT_IMAGE_WIDTH DEFAULT_IMAGE_HEIGHT = (2, 0, 0) := by
    unfold project_detection_to_world image_offset_to_angle_rad bbox_center
      distance_from_bbox DEFAULT_IMAGE_WIDTH DEFAULT_IMAGE_HEIGHT DEFAULT_HFOV_DEG
      DEFAULT_PERSON_HEIGHT_M
    simp only [Option.getD]
    rw [focal_v_default, focal_h_default]
    rw [show ((300 : ℝ) + 340) / 2 - 640 / 2 = 0 by norm_num]
    rw [atan2_zero_of_pos _ (by positivity), radians_zero]
    rw [show |272 * Real.sqrt 3 - 0| = 272 * Real.sqrt 3 by
      rw [sub_zero, abs_of_nonneg (by positivity)]]
    rw [max_eq_left (by nlinarith)]
    rw [show (1.7 : ℝ) * (320 * Real.sqrt 3) / (272 * Real.sqrt 3) = 2 by
      rw [div_eq_iff (by positivity)]
      ring]
    norm_num [Real.cos_zero, Real.sin_zero]
  have hdist : _dist ((2 : ℝ), (0 : ℝ)) (2, 0) = 0 := by
    unfold _dist
    norm_num
  have herr : match_candidates 3 1
      [{ wx := 2, wy := 0, conf := 0, cam_id := "c" }]
      [(1, { id := 1
             position := (2, 0)
             confidence := 0
             last_seen := 0
             source_cameras := ["c"] })]
      [] 2 = .error () := by
    unfold match_candidates find_best merge_track
    simp [hdist]
  unfold process_frame
  simp only [dictGet_cons, dictGet_nil, reduceIte, List.map, hproj]
  rw [herr]

end ClaimC5CE

section ClaimC3

open AssignmentModel

theorem dictGet_map_update_ne {κ ν : Type} [DecidableEq κ] (l : List (κ × ν))
    (f : ν → ν) {a k : κ} (h : a ≠ k) :
    dictGet (l.map (fun p => if p.1 = a then (p.1, f p.2) else p)) k = dictGet l k := by
  induction l with
  | nil => rfl
  | cons p rest ih =>
    by_cases hpa : p.1 = a
    · simp [hpa, h, ih]
    · by_cases hpk : p.1 = k
      · have hka : ¬(k = a) := by
          rw [← hpk]
          exact hpa
        simp [hpk, hka]
      · simp [hpa, hpk, ih]

theorem dictGet_map_update_self {κ ν : Type} [DecidableEq κ] (l : List (κ × ν))
    (f : ν → ν) (a : κ) :
    dictGet (l.map (fun p => if p.1 = a then (p.1, f p.2) else p)) a =
      (dictGet l a).map f := by
  induction l with
  | nil => rfl
  | cons p rest ih =>
    by_cases hpa : p.1 = a
    · simp [hpa]
    · simp [hpa, ih]

theorem dictGet_foldl_update_none {κ ν χ : Type} [DecidableEq κ]
    (key : χ → κ) (upd : χ → ν → ν) (l : List χ) {acc : List (κ × ν)} {k : κ}
    (h : dictGet acc k = none) :
    dictGet (l.foldl
      (fun acc q => acc.map (fun p => if p.1 = key q then (p.1, upd q p.2) else p))
      acc) k = none := by
  induction l generalizing acc with
  | nil => exact h
  | cons q rest ih =>
    rw [List.foldl_cons]
    apply ih
    by_cases hq : key q = k
    · rw [← hq] at h ⊢
      rw [dictGet_map_update_self, h]
      rfl
    · rw [dictGet_map_update_ne _ _ hq]
      exact h

theorem dictGet_foldl_update_of_countP_zero {κ ν χ : Type} [DecidableEq κ]
    (key : χ → κ) (upd : χ → ν → ν) {l : List χ} (acc : List (κ × ν)) {k : κ}
    (h : l.countP (fun q => decide (key q = k)) = 0) :
    dictGet (l.foldl
      (fun acc q => acc.map (fun p => if p.1 = key q then (p.1, upd q p.2) else p))
      acc) k = dictGet acc k := by
  induction l generalizing acc with
  | nil => rfl
  | cons q rest ih =>
    rw [List.countP_cons] at h
    by_cases hq : key q = k
    · simp [hq] at h
    · rw [List.foldl_cons]
      rw [ih _ (by simpa [hq] using h)]
      exact dictGet_map_update_ne acc (upd q) hq

theorem dictGet_foldl_update_last {κ ν χ : Type} [DecidableEq κ]
    (key : χ → κ) (upd : χ → ν → ν) {pre post : List χ} (q0 : χ)
    (acc : List (κ × ν)) {k : κ} {v : ν}
    (hq0 : key q0 = k)
    (hpre : pre.countP (fun q => decide (key q = k)) = 0)
    (hpost : post.countP (fun q => decide (key q = k)) = 0)
    (hacc : dictGet acc k = some v) :
    dictGet ((pre ++ q0 :: post).foldl
      (fun acc q => acc.map (fun p => if p.1 = key q then (p.1, upd q p.2) else p))
      acc) k = some (upd q0 v) := by
  rw [List.foldl_append, List.foldl_cons]
  rw [dictGet_foldl_update_of_countP_zero key upd _ hpost]
  rw [hq0, dictGet_map_update_self]
  rw [dictGet_foldl_update_of_countP_zero key upd _ hpre, hacc]
  rfl

theorem countP_eq_one_decompose {α : Type} {p : α → Bool} {l : List α}
    (h : l.countP p = 1) :
    ∃ pre x post, l = pre ++ x :: post ∧ p x = true ∧
      pre.countP p = 0 ∧ post.countP p = 0 := by
  induction l with
  | nil => simp at h
  | cons a rest ih =>
    rw [List.countP_cons] at h
    by_cases hp : p a
    · refine ⟨[], a, rest, rfl, hp, rfl, ?_⟩
      simpa [hp] using h
    · simp only [hp, if_false, add_zero] at h
      obtain ⟨pre, x, post, heq, hx, hpre, hpost⟩ := ih h
      exact ⟨a :: pre, x, post, by rw [heq, List.cons_append],
        hx, by simp [List.countP_cons, hp, hpre], hpost⟩

/-- C3 (amended): after `_apply_assignments`, provided the applied assignment
set names each agent id in at most one entry (as is the case whenever every
agent serves at most one target, e.g. all capacities are 1), every agent in
the agent table satisfies: `current_assignment = some t` iff the assignment
table maps `t` to an Assignment whose `agent_id` is that agent's id; in
particular an agent serving no target points at `none`.  With two or more
assignments on one agent the single pointer can only name the last entry
applied, so the claimed equivalence fails (see the counterexample). -/
theorem apply_assignments_pointer_consistency (e : Engine) (now : ℝ)
    (new : List (TargetId × Assignment))
    (hid : ∀ p ∈ e.agents, (p.2 : Agent).id = p.1)
    (hkeys : (new.map Prod.fst).Nodup)
    (honce : ∀ a : AgentId,
      new.countP (fun q => decide ((q.2 : Assignment).agent_id = a)) ≤ 1) :
    ∀ k ag, dictGet (_apply_assignments e now new).agents k = some ag →
      ∀ t : TargetId, ag.current_assignment = some t ↔
        ∃ asg, dictGet (_apply_assignments e now new).assignments t = some asg ∧
          asg.agent_id = ag.id := by
  intro k ag hag t
  have hassign : (_apply_assignments e now new).assignments = new := rfl
  rw [hassign]
  have hagents : (_apply_assignments e now new).agents =
      new.foldl
        (fun acc q =>
          acc.map (fun p =>
            if p.1 = (q.2 : Assignment).agent_id then
              (p.1, { p.2 with current_assignment := some q.1 })
            else p))
        (e.agents.map (fun p => (p.1, { p.2 with current_assignment := none }))) := rfl
  rw [hagents] at hag
  set cleared := e.agents.map (fun p => (p.1, { p.2 with current_assignment := none }))
    with hcleared
  have hclr : dictGet cleared k =
      (dictGet e.agents k).map (fun a => { a with current_assignment := none }) := by
    rw [hcleared]
    exact dictGet_map_value (fun a => { a with current_assignment := none }) e.agents k
  cases hg0 : dictGet e.agents k with
  | none =>
    exfalso
    have hnone : dictGet cleared k = none := by rw [hclr, hg0]; rfl
    have hfold := dictGet_foldl_update_none
      (fun q : TargetId × Assignment => (q.2 : Assignment).agent_id)
      (fun q a => { a with current_assignment := some q.1 })
      new hnone
    exact Option.noConfusion (hfold.symm.trans hag)
  | some ag0 =>
    have hid0 : ag0.id = k := hid _ (mem_of_dictGet_eq_some hg0)
    have hclr2 : dictGet cleared k = some { ag0 with current_assignment := none } := by
      rw [hclr, hg0]
      rfl
    rcases Nat.le_one_iff_eq_zero_or_eq_one.1 (honce k) with hcnt | hcnt
    · have hstep := dictGet_foldl_update_of_countP_zero
        (fun q : TargetId × Assignment => (q.2 : Assignment).agent_id)
        (fun q a => { a with current_assignment := some q.1 })
        cleared hcnt
      have hag2 : dictGet cleared k = some ag := hstep.symm.trans hag
      have hag3 : ag = { ag0 with current_assignment := none } :=
        Option.some.inj (hag2.symm.trans hclr2)
      constructor
      · intro hlt
        rw [hag3] at hlt
        exact absurd hlt (by simp)
      · rintro ⟨asg, hasg, haid⟩
        exfalso
        have hmem := mem_of_dictGet_eq_some hasg
        have haidk : (asg : Assignment).agent_id = k := by
          rw [haid, hag3]
          exact hid0
        exact absurd (by simp [haidk]) (List.countP_eq_zero.1 hcnt _ hmem)
    · obtain ⟨pre, q0, post, hdec, hq0, hpre, hpost⟩ := countP_eq_one_decompose hcnt
      have hq0k : (q0.2 : Assignment).agent_id = k := of_decide_eq_true hq0
      have hstep := dictGet_foldl_update_last
        (fun q : TargetId × Assignment => (q.2 : Assignment).agent_id)
        (fun q a => { a with current_assignment := some q.1 })
        q0 cleared hq0k hpre hpost hclr2
      rw [hdec] at hag
      have hag3 : ag = { ag0 with current_assignment := some q0.1 } :=
        Option.some.inj ((hstep.symm.trans hag).symm)
      have hcur : ag.current_assignment = some q0.1 := by rw [hag3]
      have hagid : ag.id = k := by
        rw [hag3]
        exact hid0
      constructor
      · intro hlt
        rw [hcur] at hlt
        have ht : t = q0.1 := (Option.some.inj hlt).symm
        refine ⟨q0.2, ?_, ?_⟩
        · rw [ht]
          apply dictGet_eq_some_of_mem hkeys
          rw [hdec]
          exact List.mem_append_right _ (List.mem_cons_self _ _)
        · rw [hq0k, hagid]
      · rintro ⟨asg, hasg, haid⟩
        have haidk : (asg : Assignment).agent_id = k := by rw [haid, hagid]
        have hmem := mem_of_dictGet_eq_some hasg
        rw [hdec] at hmem
        rcases List.mem_append.1 hmem with hin | hin
        · exact absurd (by simp [haidk]) (List.countP_eq_zero.1 hpre _ hin)
        · rcases List.mem_cons.1 hin with heq | hin
          · have ht : t = q0.1 := congrArg Prod.fst heq
            rw [hcur, ht]
          · exact absurd (by simp [haidk]) (List.countP_eq_zero.1 hpost _ hin)

end ClaimC3

section ClaimC3Closed

open AssignmentModel

/-- C3 witness: applying a single-assignment set `{1 → "A"}` to a one-agent
table; the equivalence holds at agent `"A"`, target `1`. -/
theorem apply_assignments_pointer_consistency_witness :
    ({ id := "A"
       position := { x := 0, y := 0 }
       current_assignment := some 1
       max_assignments := 1
       last_updated := 0 } : Agent).current_assignment = some 1 ↔
      ∃ asg, dictGet (_apply_assignments
          { agents := [("A", { id := "A", position := { x := 0, y := 0 } })] } 0
          [(1, { target_id := 1
                 agent_id := "A"
                 distance := 0
                 timestamp := 0 })]).assignments 1 = some asg ∧
        asg.agent_id = ({ id := "A"
                          position := { x := 0, y := 0 }
                          current_assignment := some 1
                          max_assignments := 1
                          last_updated := 0 } : Agent).id :=
  apply_assignments_pointer_consistency
    { agents := [("A", { id := "A", position := { x := 0, y := 0 } })] } 0
    [(1, { target_id := 1
           agent_id := "A"
           distance := 0
           timestamp := 0 })]
    (by
      intro p hp
      rcases List.mem_singleton.1 hp with rfl
      rfl)
    (by simp)
    (fun a => le_trans (List.countP_le_length _) (by simp))
    "A" _ (by rfl) 1

/-- C3 counterexample: applying an assignment set in which agent `"A"`
serves both target `1` and target `2` leaves `"A"`'s single pointer at the
last applied target, `2`, although the assignment table maps target `1` to
`"A"` as well — so `agent.current_assignment == t` fails for `t = 1` even
though `assignments[1].agent_id == "A"`. -/
theorem apply_assignments_pointer_inconsistent_double_agent :
    (dictGet (_apply_assignments
        { agents := [("A", { id := "A", position := { x := 0, y := 0 } })] } 0
        [(1, { target_id := 1
               agent_id := "A"
               distance := 0
               timestamp := 0 }),
         (2, { target_id := 2
               agent_id := "A"
               distance := 0
               timestamp := 0 })]).agents "A").map (fun ag => ag.current_assignment) =
      some (some 2) ∧
    (dictGet (_apply_assignments
        { agents := [("A", { id := "A", position := { x := 0, y := 0 } })] } 0
        [(1, { target_id := 1
               agent_id := "A"
               distance := 0
               timestamp := 0 }),
         (2, { target_id := 2
               agent_id := "A"
               distance := 0
               timestamp := 0 })]).assignments 1).map (fun asg => asg.agent_id) =
      some "A" ∧
    ¬((some 2 : Option TargetId) = some 1) :=
  ⟨by rfl, by rfl, by simp⟩

end ClaimC3Closed

section ClaimC1

open AssignmentModel

theorem best_available_ne_exclude {agents : List (AgentId × Agent)}
    {load : AgentId → Nat} {x : AgentId} {row : List (AgentId × ℝ)}
    {a : AgentId} {d : ℝ}
    (h : _best_available_agent agents load (some x) row = some (a, d)) :
    a ≠ x := by
  induction row with
  | nil => simp [_best_available_agent] at h
  | cons p rest ih =>
    obtain ⟨aid, dd⟩ := p
    unfold _best_available_agent at h
    by_cases hx : some aid = some x
    · rw [if_pos hx] at h
      exact ih h
    · rw [if_neg hx] at h
      by_cases hc : load aid < capOf agents aid
      · rw [if_pos hc] at h
        simp only [Option.some.injEq, Prod.mk.injEq] at h
        obtain ⟨rfl, rfl⟩ := h
        intro hax
        exact hx (by rw [hax])
      · rw [if_neg hc] at h
        exact ih h

theorem best_available_mem_and_capacity {agents : List (AgentId × Agent)}
    {load : AgentId → Nat} {excl : Option AgentId} {row : List (AgentId × ℝ)}
    {a : AgentId} {d : ℝ}
    (h : _best_available_agent agents load excl row = some (a, d)) :
    (a, d) ∈ row ∧ load a < capOf agents a := by
  induction row with
  | nil => simp [_best_available_agent] at h
  | cons p rest ih =>
    obtain ⟨aid, dd⟩ := p
    unfold _best_available_agent at h
    by_cases hx : some aid = excl
    · rw [if_pos hx] at h
      exact ⟨List.mem_cons_of_mem _ (ih h).1, (ih h).2⟩
    · rw [if_neg hx] at h
      by_cases hc : load aid < capOf agents aid
      · rw [if_pos hc] at h
        simp only [Option.some.injEq, Prod.mk.injEq] at h
        obtain ⟨rfl, rfl⟩ := h
        exact ⟨List.mem_cons_self _ _, hc⟩
      · rw [if_neg hc] at h
        exact ⟨List.mem_cons_of_mem _ (ih h).1, (ih h).2⟩

theorem v2_step_fst_lookup_ne (e : Engine) (now : ℝ)
    (matrix : List (TargetId × List (AgentId × ℝ)))
    (st : List (TargetId × Assignment) × (AgentId → Nat)) (tgt : Target)
    {k : TargetId} (h : tgt.id ≠ k) :
    dictGet ((v2_step e now matrix st tgt).1) k = dictGet st.1 k := by
  unfold v2_step
  dsimp only
  repeat' split
  all_goals
    first
      | rfl
      | exact dictGet_dictInsert_ne _ _ _ _ h

theorem v2_foldl_fst_lookup_ne (e : Engine) (now : ℝ)
    (matrix : List (TargetId × List (AgentId × ℝ)))
    (ts : List Target)
    (st : List (TargetId × Assignment) × (AgentId → Nat))
    {k : TargetId} (h : ∀ tg ∈ ts, (tg : Target).id ≠ k) :
    dictGet ((ts.foldl (v2_step e now matrix) st).1) k = dictGet st.1 k := by
  induction ts generalizing st with
  | nil => rfl
  | cons tg rest ih =>
    rw [List.foldl_cons]
    rw [ih _ (fun x hx => h x (List.mem_cons_of_mem _ hx))]
    exact v2_step_fst_lookup_ne e now matrix st tg (h tg (List.mem_cons_self _ _))

theorem v2_step_keep (e : Engine) (now : ℝ)
    (matrix : List (TargetId × List (AgentId × ℝ)))
    (st : List (TargetId × Assignment) × (AgentId → Nat)) (t : Target)
    (cur : Assignment) (incumbent : Agent) (d0 d1 : ℝ) (a : AgentId)
    (hcur : dictGet e.assignments t.id = some cur)
    (hinc : dictGet e.agents cur.agent_id = some incumbent)
    (hrow : dictGet ((dictGet matrix t.id).getD []) cur.agent_id = some d0)
    (hbest : _best_available_agent e.agents st.2 (some cur.agent_id)
      ((dictGet matrix t.id).getD []) = some (a, d1))
    (hcond : ¬(a ≠ "" ∧ d0 - d1 > e.reassign_threshold)) :
    (v2_step e now matrix st t).1 =
      dictInsert st.1 t.id
        { target_id := t.id, agent_id := cur.agent_id, distance := d0,
          timestamp := now } := by
  unfold v2_step
  rw [hcur]
  simp only [hinc, Option.isSome_some, if_true, hrow, Option.getD_some]
  rw [hbest]
  dsimp only
  rw [if_neg hcond]

/-- C1 (amended): consider a v2 (anti-thrash) run in which the active target
`t` is processed with load state `load` (the fold state after the targets
before `t` in confidence order), has an existing assignment `cur` whose
incumbent agent is still in the agent table at row distance `d0`, and
`_best_available_agent` (the closest agent with spare capacity, the
incumbent excluded) returns `(a, d1)`.  Then `t` is reassigned to `a` iff
`a` is a non-empty id (Python truthiness of `if best_agent_id and ...`:
an agent whose id is the empty string never triggers reassignment) and
`d0 - d1 > reassign_threshold`; otherwise — in particular when `d0 - d1`
equals the threshold exactly — the incumbent is kept at distance `d0`.
The resulting entry survives to the final assignment table of
`_assign_v2_antithrash` (the targets after `t` have different ids). -/
theorem v2_hysteresis_boundary (e : Engine) (now : ℝ)
    (pre post : List Target) (t : Target) (cur : Assignment) (incumbent : Agent)
    (d0 d1 : ℝ) (a : AgentId)
    (hsorted : sorted_active e now = pre ++ t :: post)
    (hpost : ∀ tg ∈ post, (tg : Target).id ≠ t.id)
    (hcur : dictGet e.assignments t.id = some cur)
    (hinc : dictGet e.agents cur.agent_id = some incumbent)
    (hrow : dictGet ((dictGet (compute_distance_matrix e now) t.id).getD [])
      cur.agent_id = some d0)
    (hbest : _best_available_agent e.agents
      ((pre.foldl (v2_step e now (compute_distance_matrix e now))
        ([], seed_load e now)).2)
      (some cur.agent_id)
      ((dictGet (compute_distance_matrix e now) t.id).getD []) = some (a, d1)) :
    ∃ asg, dictGet (_assign_v2_antithrash e now).assignments t.id = some asg ∧
      (asg.agent_id = a ↔ (a ≠ "" ∧ d0 - d1 > e.reassign_threshold)) ∧
      ((a ≠ "" ∧ d0 - d1 > e.reassign_threshold) →
        asg = { target_id := t.id, agent_id := a, distance := d1, timestamp := now }) ∧
      (¬(a ≠ "" ∧ d0 - d1 > e.reassign_threshold) →
        asg = { target_id := t.id, agent_id := cur.agent_id, distance := d0,
                timestamp := now }) ∧
      (d0 - d1 = e.reassign_threshold →
        asg = { target_id := t.id, agent_id := cur.agent_id, distance := d0,
                timestamp := now }) := by
  have hne : a ≠ cur.agent_id := best_available_ne_exclude hbest
  have hres : (_assign_v2_antithrash e now).assignments =
      ((sorted_active e now).foldl (v2_step e now (compute_distance_matrix e now))
        ([], seed_load e now)).1 := rfl
  rw [hres, hsorted, List.foldl_append, List.foldl_cons]
  rw [v2_foldl_fst_lookup_ne _ _ _ _ _ hpost]
  set st := pre.foldl (v2_step e now (compute_distance_matrix e now))
    ([], seed_load e now) with hst
  have hstep : dictGet ((v2_step e now (compute_distance_matrix e now) st t).1) t.id =
      some (if a ≠ "" ∧ d0 - d1 > e.reassign_threshold then
        { target_id := t.id, agent_id := a, distance := d1, timestamp := now }
      else
        { target_id := t.id, agent_id := cur.agent_id, distance := d0,
          timestamp := now }) := by
    unfold v2_step
    rw [hcur]
    simp only [hinc, Option.isSome_some, if_true, hrow, Option.getD_some]
    rw [hbest]
    dsimp only
    by_cases hcond : a ≠ "" ∧ d0 - d1 > e.reassign_threshold
    · rw [if_pos hcond, if_pos hcond]
      exact dictGet_dictInsert_self _ _ _
    · rw [if_neg hcond, if_neg hcond]
      exact dictGet_dictInsert_self _ _ _
  refine ⟨_, hstep, ?_, ?_, ?_, ?_⟩
  · by_cases hcond : a ≠ "" ∧ d0 - d1 > e.reassign_threshold
    · rw [if_pos hcond]
      simpa using hcond
    · rw [if_neg hcond]
      simp only [hcond, iff_false]
      intro hceq
      exact hne hceq.symm
  · intro hcond
    rw [if_pos hcond]
  · intro hcond
    rw [if_neg hcond]
  · intro heq
    have hcond : ¬(a ≠ "" ∧ d0 - d1 > e.reassign_threshold) := by
      rintro ⟨-, hgt⟩
      rw [heq] at hgt
      exact lt_irrefl _ hgt
    rw [if_neg hcond]

end ClaimC1

section ClaimC1Closed

open AssignmentModel

theorem distance_to_horizontal (x1 x2 y : ℝ) (h : x1 ≤ x2) :
    Position.distance_to { x := x1, y := y } { x := x2, y := y } = x2 - x1 := by
  unfold Position.distance_to
  dsimp only
  rw [show (x1 - x2) ^ 2 + (y - y) ^ 2 = (x2 - x1) ^ 2 by ring]
  exact Real.sqrt_sq (by linarith)

theorem c1_witness_matrix :
    compute_distance_matrix
      { agents := [("A", { id := "A", position := { x := 10, y := 0 } }),
                   ("B", { id := "B", position := { x := 1, y := 0 } })]
        targets := [(7, { id := 7, position := { x := 0, y := 0 }, last_seen := 0 })]
        assignments := [(7, { target_id := 7
                              agent_id := "A"
                              distance := 10
                              timestamp := 0 })] } 1 =
      [(7, [("B", 1), ("A", 10)])] := by
  unfold compute_distance_matrix active_targets distance_row
  norm_num [List.filter_cons, sortByKey, insertAsc,
    distance_to_horizontal 0 10 0 (by norm_num),
    distance_to_horizontal 0 1 0 (by norm_num)]

/-- C1 witness: two agents `A` (far, incumbent, distance 10) and `B`
(near, distance 1), threshold `1.5`: the improvement `9` exceeds the
threshold and the target is reassigned to `B`. -/
theorem v2_hysteresis_boundary_witness :
    ∃ asg, dictGet (_assign_v2_antithrash
        { agents := [("A", { id := "A", position := { x := 10, y := 0 } }),
                     ("B", { id := "B", position := { x := 1, y := 0 } })]
          targets := [(7, { id := 7, position := { x := 0, y := 0 }, last_seen := 0 })]
          assignments := [(7, { target_id := 7
                                agent_id := "A"
                                distance := 10
                                timestamp := 0 })] } 1).assignments 7 = some asg ∧
      (asg.agent_id = "B" ↔ ("B" ≠ "" ∧ (10 : ℝ) - 1 > 1.5)) ∧
      (("B" ≠ "" ∧ (10 : ℝ) - 1 > 1.5) →
        asg = { target_id := 7, agent_id := "B", distance := 1, timestamp := 1 }) ∧
      (¬("B" ≠ "" ∧ (10 : ℝ) - 1 > 1.5) →
        asg = { target_id := 7, agent_id := "A", distance := 10, timestamp := 1 }) ∧
      ((10 : ℝ) - 1 = 1.5 →
        asg = { target_id := 7, agent_id := "A", distance := 10, timestamp := 1 }) := by
  refine v2_hysteresis_boundary _ 1 [] []
    { id := 7, position := { x := 0, y := 0 }, last_seen := 0 }
    { target_id := 7, agent_id := "A", distance := 10, timestamp := 0 }
    { id := "A", position := { x := 10, y := 0 } } 10 1 "B" ?_ ?_ ?_ ?_ ?_ ?_
  · unfold sorted_active active_targets
    norm_num [List.filter_cons, sortByKey, insertAsc]
  · simp
  · rfl
  · rfl
  · rw [c1_witness_matrix]
    rfl
  · rw [c1_witness_matrix]
    norm_num [_best_available_agent, seed_load, capOf, Function.update,
      active_targets, List.filter_cons, List.foldl, dictGet,
      show ¬(("A" : String) = "B") by decide, show ¬(("B" : String) = "A") by decide]

end ClaimC1Closed

section ClaimC1CE

open AssignmentModel

/-- C1 counterexample: agent table (in insertion order) holds an agent with
the empty-string id at distance 1 and the incumbent `"A"` at distance 10,
threshold `1.5`.  The best available alternative (excluding the incumbent)
is the empty-id agent at distance 1 and `d0 - d1 = 9 > 1.5`, yet the v2 run
keeps the incumbent: `if best_agent_id and improvement > threshold` is
falsy for the empty string in Python, so the claimed "reassigned iff
`d0 - d1 > reassign_threshold`" fails on this run. -/
theorem v2_empty_id_alternative_not_reassigned :
    compute_distance_matrix
      { agents := [("", { id := "", position := { x := 1, y := 0 } }),
                   ("A", { id := "A", position := { x := 10, y := 0 } })]
        targets := [(7, { id := 7, position := { x := 0, y := 0 }, last_seen := 0 })]
        assignments := [(7, { target_id := 7
                              agent_id := "A"
                              distance := 10
                              timestamp := 0 })] } 1 = [(7, [("", 1), ("A", 10)])] ∧
    _best_available_agent
      [("", { id := "", position := { x := 1, y := 0 } }),
       ("A", { id := "A", position := { x := 10, y := 0 } })]
      (seed_load
        { agents := [("", { id := "", position := { x := 1, y := 0 } }),
                     ("A", { id := "A", position := { x := 10, y := 0 } })]
          targets := [(7, { id := 7, position := { x := 0, y := 0 }, last_seen := 0 })]
          assignments := [(7, { target_id := 7
                                agent_id := "A"
                                distance := 10
                                timestamp := 0 })] } 1)
      (some "A") [("", 1), ("A", 10)] = some ("", 1) ∧
    ((10 : ℝ) - 1 > 1.5) ∧
    dictGet (_assign_v2_antithrash
      { agents := [("", { id := "", position := { x := 1, y := 0 } }),
                   ("A", { id := "A", position := { x := 10, y := 0 } })]
        targets := [(7, { id := 7, position := { x := 0, y := 0 }, last_seen := 0 })]
        assignments := [(7, { target_id := 7
                              agent_id := "A"
                              distance := 10
                              timestamp := 0 })] } 1).assignments 7 =
      some { target_id := 7, agent_id := "A", distance := 10, timestamp := 1 } := by
  have hA : ¬(("" : String) = "A") := by decide
  have hA2 : ¬(("A" : String) = "") := by decide
  set eC : Engine :=
    { agents := [("", { id := "", position := { x := 1, y := 0 } }),
                 ("A", { id := "A", position := { x := 10, y := 0 } })]
      targets := [(7, { id := 7, position := { x := 0, y := 0 }, last_seen := 0 })]
      assignments := [(7, { target_id := 7
                            agent_id := "A"
                            distance := 10
                            timestamp := 0 })] } with heC
  have hmat : compute_distance_matrix eC 1 = [(7, [("", 1), ("A", 10)])] := by
    rw [heC]
    unfold compute_distance_matrix active_targets distance_row
    norm_num [List.filter_cons, sortByKey, insertAsc,
      distance_to_horizontal 0 10 0 (by norm_num),
      distance_to_horizontal 0 1 0 (by norm_num)]
  have hbest2 : _best_available_agent eC.agents (seed_load eC 1)
      (some "A") [("", 1), ("A", 10)] = some ("", 1) := by
    rw [heC]
    norm_num [_best_available_agent, seed_load, capOf, Function.update,
      active_targets, List.filter_cons, List.foldl, dictGet, hA, hA2]
  have hsorted : sorted_active eC 1 =
      [{ id := 7, position := { x := 0, y := 0 }, last_seen := 0 }] := by
    rw [heC]
    unfold sorted_active active_targets
    norm_num [List.filter_cons, sortByKey, insertAsc]
  refine ⟨hmat, hbest2, by norm_num, ?_⟩
  have hres : (_assign_v2_antithrash eC 1).assignments =
      ((sorted_active eC 1).foldl
        (v2_step eC 1 (compute_distance_matrix eC 1))
        ([], seed_load eC 1)).1 := rfl
  rw [hres, hsorted, List.foldl_cons, List.foldl_nil]
  have hkeep := v2_step_keep eC 1 (compute_distance_matrix eC 1)
    ([], seed_load eC 1)
    { id := 7, position := { x := 0, y := 0 }, last_seen := 0 }
    { target_id := 7, agent_id := "A", distance := 10, timestamp := 0 }
    { id := "A", position := { x := 10, y := 0 } } 10 1 ""
    (by rw [heC]; rfl)
    (by rw [heC]; rfl)
    (by
      rw [hmat]
      rfl)
    (by
      rw [hmat]
      exact hbest2)
    (by simp)
  rw [hkeep]
  exact dictGet_dictInsert_self _ _ _

end ClaimC1CE

section ClaimC6Lemmas

open Fusion

theorem _dist_comm (a b : ℝ × ℝ) : _dist a b = _dist b a := by
  unfold _dist
  rw [show (a.1 - b.1) ^ 2 + (a.2 - b.2) ^ 2 = (b.1 - a.1) ^ 2 + (b.2 - a.2) ^ 2 by ring]

theorem merge_track_id {gt gt2 : GlobalTrack} {wx wy conf now : ℝ} {cam : String}
    (h : merge_track gt wx wy conf now cam = some gt2) : gt2.id = gt.id := by
  unfold merge_track at h
  by_cases ht : gt.confidence + conf = 0
  · rw [if_pos ht] at h
    exact Option.noConfusion h
  · rw [if_neg ht] at h
    rw [← Option.some.inj h]

theorem find_best_fold_spec (used : List Int) (radius : ℝ) (pos : ℝ × ℝ)
    (l : List (Int × GlobalTrack)) (best : Option Int × ℝ) :
    (l.foldl
      (fun best p =>
        if p.1 ∈ used then best
        else if _dist p.2.position pos < best.2 then (some p.1, _dist p.2.position pos)
        else best) best).2 ≤ best.2 ∧
    (∀ j, (l.foldl
      (fun best p =>
        if p.1 ∈ used then best
        else if _dist p.2.position pos < best.2 then (some p.1, _dist p.2.position pos)
        else best) best).1 = some j →
      (∃ g, (j, g) ∈ l ∧ _dist g.position pos < best.2) ∨ best.1 = some j) := by
  induction l generalizing best with
  | nil => exact ⟨le_rfl, fun j hj => Or.inr hj⟩
  | cons p rest ih =>
    rw [List.foldl_cons]
    by_cases hu : p.1 ∈ used
    · rw [if_pos hu]
      refine ⟨(ih best).1, fun j hj => ?_⟩
      rcases (ih best).2 j hj with ⟨g, hg, hd⟩ | hb
      · exact Or.inl ⟨g, List.mem_cons_of_mem _ hg, hd⟩
      · exact Or.inr hb
    · rw [if_neg hu]
      by_cases hd : _dist p.2.position pos < best.2
      · rw [if_pos hd]
        refine ⟨le_trans (ih _).1 (le_of_lt hd), fun j hj => ?_⟩
        rcases (ih _).2 j hj with ⟨g, hg, hdg⟩ | hb
        · exact Or.inl ⟨g, List.mem_cons_of_mem _ hg, lt_trans hdg hd⟩
        · refine Or.inl ⟨p.2, ?_, hd⟩
          rw [← Option.some.inj hb]
          exact List.mem_cons_self _ _
      · rw [if_neg hd]
        refine ⟨(ih best).1, fun j hj => ?_⟩
        rcases (ih best).2 j hj with ⟨g, hg, hdg⟩ | hb
        · exact Or.inl ⟨g, List.mem_cons_of_mem _ hg, hdg⟩
        · exact Or.inr hb

theorem find_best_some_spec {tracks : List (Int × GlobalTrack)} {used : List Int}
    {radius : ℝ} {pos : ℝ × ℝ} {gid : Int}
    (h : (find_best tracks used radius pos).1 = some gid) :
    ∃ g, (gid, g) ∈ tracks ∧ _dist g.position pos < radius := by
  unfold find_best at h
  rcases (find_best_fold_spec used radius pos tracks (none, radius)).2 gid h with
    ⟨g, hg, hd⟩ | hb
  · exact ⟨g, hg, hd⟩
  · exact Option.noConfusion hb

theorem mem_dictInsert {κ ν : Type} [DecidableEq κ] {l : List (κ × ν)}
    {k : κ} {v : ν} {p : κ × ν} (h : p ∈ dictInsert l k v) :
    p = (k, v) ∨ p ∈ l := by
  unfold dictInsert at h
  by_cases hs : (dictGet l k).isSome
  · rw [if_pos hs] at h
    rcases List.mem_map.1 h with ⟨q, hq, heq⟩
    by_cases hqk : q.1 = k
    · rw [if_pos hqk] at heq
      exact Or.inl heq.symm
    · rw [if_neg hqk] at heq
      exact Or.inr (heq ▸ hq)
  · rw [if_neg hs] at h
    rcases List.mem_append.1 h with hin | hin
    · exact Or.inr hin
    · exact Or.inl (List.mem_singleton.1 hin)

theorem dictInsert_map_fst {κ ν : Type} [DecidableEq κ] (l : List (κ × ν))
    (k : κ) (v : ν) :
    (dictInsert l k v).map Prod.fst =
      if (dictGet l k).isSome then l.map Prod.fst else l.map Prod.fst ++ [k] := by
  unfold dictInsert
  by_cases hs : (dictGet l k).isSome
  · rw [if_pos hs, if_pos hs, List.map_map]
    apply List.map_congr_left
    intro p hp
    by_cases hpk : p.1 = k
    · simp [hpk]
    · simp [hpk]
  · rw [if_neg hs, if_neg hs, List.map_append]
    rfl

theorem dictGet_filter_none {κ ν : Type} [DecidableEq κ] (p : κ × ν → Bool)
    {l : List (κ × ν)} {k : κ} (h : dictGet l k = none) :
    dictGet (l.filter p) k = none := by
  induction l with
  | nil => rfl
  | cons q rest ih =>
    rw [dictGet_cons] at h
    by_cases hq : q.1 = k
    · rw [if_pos hq] at h
      exact Option.noConfusion h
    · rw [if_neg hq] at h
      rw [List.filter_cons]
      by_cases hp : p q
      · rw [if_pos hp, dictGet_cons, if_neg hq]
        exact ih h
      · rw [if_neg hp]
        exact ih h

theorem dictGet_filter {κ ν : Type} [DecidableEq κ] (p : κ × ν → Bool)
    {l : List (κ × ν)} (hnd : (l.map Prod.fst).Nodup) {k : κ} {v : ν}
    (h : dictGet l k = some v) :
    dictGet (l.filter p) k = if p (k, v) then some v else none := by
  induction l with
  | nil => exact Option.noConfusion h
  | cons q rest ih =>
    rw [List.map_cons, List.nodup_cons] at hnd
    rw [dictGet_cons] at h
    by_cases hq : q.1 = k
    · rw [if_pos hq] at h
      have hqv : q = (k, v) := by
        obtain ⟨q1, q2⟩ := q
        simp only at hq
        simp only [Option.some.injEq] at h
        rw [hq, h]
      have hrest : dictGet rest k = none := by
        rw [← Option.not_isSome_iff_eq_none, dictGet_isSome_iff_mem_keys]
        intro hmem
        exact hnd.1 (hq ▸ hmem)
      rw [List.filter_cons]
      by_cases hp : p q
      · rw [if_pos hp, dictGet_cons, if_pos hq]
        rw [hqv] at hp
        rw [if_pos hp]
        exact h
      · rw [if_neg hp]
        rw [hqv] at hp
        rw [if_neg hp]
        exact dictGet_filter_none p hrest
    · rw [if_neg hq] at h
      rw [List.filter_cons]
      by_cases hp : p q
      · rw [if_pos hp, dictGet_cons, if_neg hq]
        exact ih hnd.2 h
      · rw [if_neg hp]
        exact ih hnd.2 h

end ClaimC6Lemmas

section ClaimC6

open Fusion

theorem match_candidates_preserves (radius now : ℝ) (k : Int) (gtv : GlobalTrack) :
    ∀ (cands : List Candidate) (tracks : List (Int × GlobalTrack)) (used : List Int)
      (next : Int),
      (tracks.map Prod.fst).Nodup →
      (∀ p ∈ tracks, (p : Int × GlobalTrack).1 < next) →
      (∀ p ∈ tracks, (p : Int × GlobalTrack).2.id = p.1) →
      dictGet tracks k = some gtv →
      (∀ c ∈ cands, radius ≤ _dist ((c : Candidate).wx, c.wy) gtv.position) →
      ∀ res next2,
        match_candidates radius now cands tracks used next = .ok (res, next2) →
        dictGet res k = some gtv ∧ (res.map Prod.fst).Nodup ∧
          (∀ p ∈ res, (p : Int × GlobalTrack).2.id = p.1) := by
  intro cands
  induction cands with
  | nil =>
    intro tracks used next hnd hlt hids hk hfar res next2 hok
    unfold match_candidates at hok
    simp only [Except.ok.injEq, Prod.mk.injEq] at hok
    obtain ⟨rfl, rfl⟩ := hok
    exact ⟨hk, hnd, hids⟩
  | cons c rest ih =>
    intro tracks used next hnd hlt hids hk hfar res next2 hok
    have hkmem := mem_of_dictGet_eq_some hk
    unfold match_candidates at hok
    split at hok
    · rename_i best_id heq1
      split at hok
      · rename_i gt0 heq2
        split at hok
        · rename_i gt2 heq3
          have hbk : best_id ≠ k := by
            intro hbk
            obtain ⟨g, hgmem, hgd⟩ := find_best_some_spec heq1
            rw [hbk] at hgmem
            have hgv : g = gtv := by
              have := dictGet_eq_some_of_mem hnd hgmem
              rw [this] at hk
              exact Option.some.inj hk
            rw [hgv, _dist_comm] at hgd
            exact absurd hgd (not_lt.2 (hfar c (List.mem_cons_self _ _)))
          have hsome : (dictGet tracks best_id).isSome := by rw [heq2]; rfl
          refine ih (dictInsert tracks best_id gt2) (best_id :: used) next ?_ ?_ ?_ ?_ ?_
            res next2 hok
          · rw [dictInsert_map_fst, if_pos hsome]
            exact hnd
          · intro p hp
            rcases mem_dictInsert hp with rfl | hp2
            · exact hlt (best_id, gt0) (mem_of_dictGet_eq_some heq2)
            · exact hlt _ hp2
          · intro p hp
            rcases mem_dictInsert hp with rfl | hp2
            · have hid2 : gt2.id = gt0.id := merge_track_id heq3
              show gt2.id = best_id
              rw [hid2]
              exact hids (best_id, gt0) (mem_of_dictGet_eq_some heq2)
            · exact hids _ hp2
          · rw [dictGet_dictInsert_ne _ _ _ _ hbk]
            exact hk
          · exact fun c2 hc2 => hfar c2 (List.mem_cons_of_mem _ hc2)
        · exact Except.noConfusion hok
      · exact Except.noConfusion hok
    · have hnext_none : dictGet tracks next = none := by
        rw [← Option.not_isSome_iff_eq_none]
        intro hsome
        rw [dictGet_isSome_iff_mem_keys] at hsome
        obtain ⟨p, hp, hp1⟩ := List.mem_map.1 hsome
        exact absurd (hp1 ▸ hlt p hp) (lt_irrefl _)
      have hknext : next ≠ k := by
        intro hkn
        exact absurd (hkn ▸ hlt _ hkmem) (lt_irrefl _)
      refine ih (dictInsert tracks next
          { id := next, position := (c.wx, c.wy), confidence := c.conf,
            last_seen := now, source_cameras := [c.cam_id] })
        used (next + 1) ?_ ?_ ?_ ?_ ?_ res next2 hok
      · rw [dictInsert_map_fst, if_neg (by rw [hnext_none]; simp)]
        refine List.Nodup.append hnd (List.nodup_singleton _) ?_
        intro a ha hb
        rw [List.mem_singleton] at hb
        obtain ⟨p, hp, hp1⟩ := List.mem_map.1 ha
        exact absurd ((hb ▸ hp1) ▸ hlt p hp) (lt_irrefl _)
      · intro p hp
        rcases mem_dictInsert hp with rfl | hp2
        · exact lt_add_one _
        · exact lt_trans (hlt _ hp2) (lt_add_one _)
      · intro p hp
        rcases mem_dictInsert hp with rfl | hp2
        · rfl
        · exact hids _ hp2
      · rw [dictGet_dictInsert_ne _ _ _ _ hknext]
        exact hk
      · exact fun c2 hc2 => hfar c2 (List.mem_cons_of_mem _ hc2)

/-- C6 (amended): let `gt` be a stored global track that no detection of the
incoming frame projects within `match_radius_m` of (a matching detection
would refresh `last_seen` and keep the track, which is the counterexample to
the claim as stated).  If the frame (for a registered camera) completes,
then: a track older than the frame timestamp by strictly more than
`track_ttl_sec` is absent from `get_global_tracks()` afterwards, and a track
whose age equals `track_ttl_sec` exactly is still present (strict `>`
eviction). -/
theorem ttl_eviction_strict (e : FusionEngine) (frame : CameraFrame)
    (camera : CameraState) (gt : GlobalTrack)
    (hcam : dictGet e.camera_states frame.camera_id = some camera)
    (hnd : (e.global_tracks.map Prod.fst).Nodup)
    (hlt : ∀ p ∈ e.global_tracks, (p : Int × GlobalTrack).1 < e.next_global_id)
    (hids : ∀ p ∈ e.global_tracks, (p : Int × GlobalTrack).2.id = p.1)
    (hgt : dictGet e.global_tracks gt.id = some gt)
    (hfar : ∀ t ∈ frame.tracks, e.match_radius_m ≤
      _dist ((project_detection_to_world t camera DEFAULT_IMAGE_WIDTH
          DEFAULT_IMAGE_HEIGHT).1,
        (project_detection_to_world t camera DEFAULT_IMAGE_WIDTH
          DEFAULT_IMAGE_HEIGHT).2.1) gt.position) :
    (frame.timestamp - gt.last_seen > e.track_ttl_sec →
      ∀ e2, process_frame e frame = .ok e2 →
        dictGet e2.global_tracks gt.id = none ∧
        ∀ g ∈ get_global_tracks e2, (g : GlobalTrack).id ≠ gt.id) ∧
    (frame.timestamp - gt.last_seen = e.track_ttl_sec →
      ∀ e2, process_frame e frame = .ok e2 →
        dictGet e2.global_tracks gt.id = some gt ∧ gt ∈ get_global_tracks e2) := by
  have hmain : ∀ e2, process_frame e frame = .ok e2 →
      ∃ tracks2, dictGet tracks2 gt.id = some gt ∧ (tracks2.map Prod.fst).Nodup ∧
        (∀ p ∈ tracks2, (p : Int × GlobalTrack).2.id = p.1) ∧
        e2.global_tracks = tracks2.filter
          (fun p => decide (¬(frame.timestamp - p.2.last_seen > e.track_ttl_sec))) := by
    intro e2 hpf
    unfold process_frame at hpf
    rw [hcam] at hpf
    dsimp only at hpf
    rcases hmc : match_candidates e.match_radius_m frame.timestamp
        (frame.tracks.map (fun t =>
          Candidate.mk
            (project_detection_to_world t camera DEFAULT_IMAGE_WIDTH
              DEFAULT_IMAGE_HEIGHT).1
            (project_detection_to_world t camera DEFAULT_IMAGE_WIDTH
              DEFAULT_IMAGE_HEIGHT).2.1
            (project_detection_to_world t camera DEFAULT_IMAGE_WIDTH
              DEFAULT_IMAGE_HEIGHT).2.2
            frame.camera_id))
        e.global_tracks [] e.next_global_id with er | ⟨tracks2, next2⟩
    · rw [hmc] at hpf
      exact Except.noConfusion hpf
    · rw [hmc] at hpf
      dsimp only at hpf
      have hpres := match_candidates_preserves e.match_radius_m frame.timestamp
        gt.id gt
        (frame.tracks.map (fun t =>
          Candidate.mk
            (project_detection_to_world t camera DEFAULT_IMAGE_WIDTH
              DEFAULT_IMAGE_HEIGHT).1
            (project_detection_to_world t camera DEFAULT_IMAGE_WIDTH
              DEFAULT_IMAGE_HEIGHT).2.1
            (project_detection_to_world t camera DEFAULT_IMAGE_WIDTH
              DEFAULT_IMAGE_HEIGHT).2.2
            frame.camera_id))
        e.global_tracks [] e.next_global_id hnd hlt hids hgt
        (by
          intro c hc
          obtain ⟨t, ht, rfl⟩ := List.mem_map.1 hc
          exact hfar t ht)
        tracks2 next2 hmc
      refine ⟨tracks2, hpres.1, hpres.2.1, hpres.2.2, ?_⟩
      have he2 : e2 = { e with
          global_tracks := tracks2.filter
            (fun p => decide (¬(frame.timestamp - p.2.last_seen > e.track_ttl_sec)))
          next_global_id := next2 } := (Except.ok.inj hpf).symm
      rw [he2]
  constructor
  · intro hage e2 hpf
    obtain ⟨tracks2, hk2, hnd2, hids2, hfilter⟩ := hmain e2 hpf
    have hdrop : dictGet e2.global_tracks gt.id = none := by
      rw [hfilter, dictGet_filter _ hnd2 hk2, if_neg]
      simp only [decide_eq_true_eq]
      exact not_not_intro hage
    refine ⟨hdrop, ?_⟩
    intro g hg hgid
    obtain ⟨q, hq, rfl⟩ := List.mem_map.1 hg
    have hq2 : q ∈ tracks2 := List.mem_of_mem_filter (hfilter ▸ hq)
    have hq1 : q.1 = gt.id := by rw [← hids2 q hq2, hgid]
    have : (dictGet e2.global_tracks gt.id).isSome := by
      rw [dictGet_isSome_iff_mem_keys]
      exact List.mem_map.2 ⟨q, hq, hq1⟩
    rw [hdrop] at this
    simp at this
  · intro hage e2 hpf
    obtain ⟨tracks2, hk2, hnd2, hids2, hfilter⟩ := hmain e2 hpf
    have hkeep : dictGet e2.global_tracks gt.id = some gt := by
      rw [hfilter, dictGet_filter _ hnd2 hk2, if_pos]
      simp only [decide_eq_true_eq]
      rw [hage]
      exact lt_irrefl _
    exact ⟨hkeep, List.mem_map.2 ⟨(gt.id, gt), mem_of_dictGet_eq_some hkeep, rfl⟩⟩

end ClaimC6

section ClaimC6Closed

open Fusion

/-- C6 witness: a track of age exactly `track_ttl_sec = 5` survives a frame
(no detections) for a registered camera — the eviction comparison is
strictly greater-than. -/
theorem ttl_eviction_strict_witness :
    dictGet ({ match_radius_m := 3
               track_ttl_sec := 5
               global_tracks := [(1, { id := 1
                                       position := (0, 0)
                                       confidence := 1
                                       last_seen := 0
                                       source_cameras := [] })]
               next_global_id := 2
               camera_states := [("c", { agent_id := "c"
                                         position := (0, 0)
                                         heading := 0
                                         timestamp := 0 })] } : FusionEngine).global_tracks
        1 =
      some { id := 1
             position := (0, 0)
             confidence := 1
             last_seen := 0
             source_cameras := [] } ∧
    ({ id := 1
       position := (0, 0)
       confidence := 1
       last_seen := 0
       source_cameras := [] } : GlobalTrack) ∈
      get_global_tracks
        { match_radius_m := 3
          track_ttl_sec := 5
          global_tracks := [(1, { id := 1
                                  position := (0, 0)
                                  confidence := 1
                                  last_seen := 0
                                  source_cameras := [] })]
          next_global_id := 2
          camera_states := [("c", { agent_id := "c"
                                    position := (0, 0)
                                    heading := 0
                                    timestamp := 0 })] } :=
  (ttl_eviction_strict
    { match_radius_m := 3
      track_ttl_sec := 5
      global_tracks := [(1, { id := 1
                              position := (0, 0)
                              confidence := 1
                              last_seen := 0
                              source_cameras := [] })]
      next_global_id := 2
      camera_states := [("c", { agent_id := "c"
                                position := (0, 0)
                                heading := 0
                                timestamp := 0 })] }
    { camera_id := "c", timestamp := 5, tracks := [] }
    { agent_id := "c", position := (0, 0), heading := 0, timestamp := 0 }
    { id := 1
      position := (0, 0)
      confidence := 1
      last_seen := 0
      source_cameras := [] }
    rfl
    (by simp)
    (by
      intro p hp
      rcases List.mem_singleton.1 hp with rfl
      norm_num)
    (by
      intro p hp
      rcases List.mem_singleton.1 hp with rfl
      rfl)
    rfl
    (by
      intro t ht
      exact absurd ht (List.not_mem_nil t))).2
    (by norm_num)
    _
    (by
      unfold process_frame match_candidates
      norm_num [dictGet, List.filter_cons])

end ClaimC6Closed

section ClaimC6CE

open Fusion

/-- C6 counterexample: a track whose age (10 s) is strictly greater than
`track_ttl_sec = 5` is still present after the next `process_frame` call
for a registered camera, because a detection of that frame matches the
track: the merge refreshes `last_seen` to the frame timestamp before the
TTL sweep runs, so the claim as stated (absence based only on age at call
time) fails. -/
theorem stale_matched_track_not_evicted :
    (10 : ℝ) - 0 > 5 ∧
    process_frame
      { match_radius_m := 3
        track_ttl_sec := 5
        global_tracks := [(1, { id := 1
                                position := (2, 0)
                                confidence := 1/2
                                last_seen := 0
                                source_cameras := ["c"] })]
        next_global_id := 2
        camera_states := [("c", { agent_id := "c"
                                  position := (0, 0)
                                  heading := 0
                                  timestamp := 0 })] }
      { camera_id := "c"
        timestamp := 10
        tracks := [{ track_id := 5
                     bbox := { x1 := 300
                               y1 := 0
                               x2 := 340
                               y2 := 272 * Real.sqrt 3 }
                     confidence := 1/2 }] } =
      .ok { match_radius_m := 3
            track_ttl_sec := 5
            global_tracks := [(1, { id := 1
                                    position := (2, 0)
                                    confidence := 1/2
                                    last_seen := 10
                                    source_cameras := ["c"] })]
            next_global_id := 2
            camera_states := [("c", { agent_id := "c"
                                      position := (0, 0)
                                      heading := 0
                                      timestamp := 0 })] } := by
  refine ⟨by norm_num, ?_⟩
  have h13 : (1 : ℝ) ≤ Real.sqrt 3 := by
    rw [show (1 : ℝ) = Real.sqrt 1 from (Real.sqrt_one).symm]
    exact Real.sqrt_le_sqrt (by norm_num)
  have hproj : project_detection_to_world
      { track_id := 5
        bbox := { x1 := 300
                  y1 := 0
                  x2 := 340
                  y2 := 272 * Real.sqrt 3 }
        confidence := 1/2 }
      { agent_id := "c"
        position := (0, 0)
        heading := 0
        timestamp := 0 }
      DEFAULT_IMAGE_WIDTH DEFAULT_IMAGE_HEIGHT = (2, 0, 1/2) := by
    unfold project_detection_to_world image_offset_to_angle_rad bbox_center
      distance_from_bbox DEFAULT_IMAGE_WIDTH DEFAULT_IMAGE_HEIGHT DEFAULT_HFOV_DEG
      DEFAULT_PERSON_HEIGHT_M
    simp only [Option.getD]
    rw [focal_v_default, focal_h_default]
    rw [show ((300 : ℝ) + 340) / 2 - 640 / 2 = 0 by norm_num]
    rw [atan2_zero_of_pos _ (by positivity), radians_zero]
    rw [show |272 * Real.sqrt 3 - 0| = 272 * Real.sqrt 3 by
      rw [sub_zero, abs_of_nonneg (by positivity)]]
    rw [max_eq_left (by nlinarith)]
    rw [show (1.7 : ℝ) * (320 * Real.sqrt 3) / (272 * Real.sqrt 3) = 2 by
      rw [div_eq_iff (by positivity)]
      ring]
    norm_num [Real.cos_zero, Real.sin_zero]
  have hdist : _dist ((2 : ℝ), (0 : ℝ)) (2, 0) = 0 := by
    unfold _dist
    norm_num
  have hmc : match_candidates 3 10
      [{ wx := 2, wy := 0, conf := 1/2, cam_id := "c" }]
      [(1, { id := 1
             position := (2, 0)
             confidence := 1/2
             last_seen := 0
             source_cameras := ["c"] })]
      [] 2 =
      .ok ([(1, { id := 1
                  position := (2, 0)
                  confidence := 1/2
                  last_seen := 10
                  source_cameras := ["c"] })], 2) := by
    unfold match_candidates find_best merge_track
    norm_num [hdist, dictGet, dictInsert]
    unfold match_candidates
    norm_num
  unfold process_frame
  simp only [dictGet_cons, dictGet_nil, reduceIte, List.map, hproj]
  rw [hmc]
  norm_num [List.filter_cons]

end ClaimC6CE

section ClaimC2Lemmas

open AssignmentModel

theorem countP_disjoint_add {α : Type} (p q : α → Bool) (l : List α)
    (h : ∀ x ∈ l, ¬(p x = true ∧ q x = true)) :
    l.countP (fun x => p x || q x) = l.countP p + l.countP q := by
  induction l with
  | nil => rfl
  | cons x rest ih =>
    have hrest := ih (fun y hy => h y (List.mem_cons_of_mem _ hy))
    rw [List.countP_cons, List.countP_cons, List.countP_cons, hrest]
    by_cases hp : p x = true
    · have hq : ¬(q x = true) := fun hq => h x (List.mem_cons_self _ _) ⟨hp, hq⟩
      simp [hp, hq]
      omega
    · by_cases hq : q x = true
      · simp [hp, hq]
        omega
      · simp [hp, hq]

theorem agent_count_dictInsert_fresh (l : List (TargetId × Assignment))
    (k : TargetId) (v : Assignment) (a : AgentId) (h : dictGet l k = none) :
    agent_count (dictInsert l k v) a =
      agent_count l a + (if v.agent_id = a then 1 else 0) := by
  rw [dictInsert_of_none _ h]
  unfold agent_count
  rw [List.countP_append]
  congr 1
  rw [List.countP_cons, List.countP_nil]
  by_cases hv : v.agent_id = a
  · simp [hv]
  · simp [hv]

theorem remSeed_cons (e : Engine) (tg : Target) (ts : List Target) (a : AgentId) :
    remSeed e (tg :: ts) a = remSeed e ts a +
      (match dictGet e.assignments tg.id with
       | some cur => if (cur : Assignment).agent_id = a then 1 else 0
       | none => 0) := by
  unfold remSeed
  rw [List.countP_cons]
  congr 1
  cases hcur : dictGet e.assignments tg.id with
  | none => simp
  | some cur =>
    by_cases hca : (cur : Assignment).agent_id = a
    · simp [hca]
    · simp [hca]

theorem seed_load_go (e : Engine) (now : ℝ)
    (l : List (TargetId × Assignment)) (f : AgentId → Nat) (a : AgentId) :
    (l.foldl
      (fun load q =>
        if (dictGet (active_targets e now) (q.2 : Assignment).target_id).isSome then
          Function.update load (q.2 : Assignment).agent_id
            (load (q.2 : Assignment).agent_id + 1)
        else load) f) a =
      f a + l.countP
        (fun q => (dictGet (active_targets e now) (q.2 : Assignment).target_id).isSome &&
          decide ((q.2 : Assignment).agent_id = a)) := by
  induction l generalizing f with
  | nil => rfl
  | cons q rest ih =>
    rw [List.foldl_cons, List.countP_cons, ih]
    by_cases hact : (dictGet (active_targets e now) (q.2 : Assignment).target_id).isSome
    · rw [if_pos hact]
      by_cases hqa : (q.2 : Assignment).agent_id = a
      · rw [hqa, Function.update_same]
        simp [hact, hqa]
        omega
      · rw [Function.update_noteq (fun hc => hqa hc.symm)]
        simp [hact, hqa]
    · rw [if_neg hact]
      simp [hact]

theorem seed_load_spec (e : Engine) (now : ℝ) (a : AgentId) :
    seed_load e now a = e.assignments.countP
      (fun q => (dictGet (active_targets e now) (q.2 : Assignment).target_id).isSome &&
        decide ((q.2 : Assignment).agent_id = a)) := by
  unfold seed_load
  rw [seed_load_go]
  exact Nat.zero_add _

theorem remSeed_le_seed (e : Engine) (now : ℝ) (a : AgentId)
    (hwfa : ∀ q ∈ e.assignments, (q.2 : Assignment).target_id = q.1) :
    ∀ (ts : List Target),
      ((ts.map (fun t => (t : Target).id)).Nodup) →
      (∀ t ∈ ts, (dictGet (active_targets e now) (t : Target).id).isSome) →
      remSeed e ts a ≤ e.assignments.countP
        (fun q => (dictGet (active_targets e now) (q.2 : Assignment).target_id).isSome &&
          decide ((q.2 : Assignment).agent_id = a)) := by
  have key : ∀ (ts : List Target),
      ((ts.map (fun t => (t : Target).id)).Nodup) →
      (∀ t ∈ ts, (dictGet (active_targets e now) (t : Target).id).isSome) →
      remSeed e ts a ≤ e.assignments.countP
        (fun q => decide ((q : TargetId × Assignment).1 ∈ ts.map (fun t => (t : Target).id)) &&
          ((dictGet (active_targets e now) (q.2 : Assignment).target_id).isSome &&
            decide ((q.2 : Assignment).agent_id = a))) := by
    intro ts
    induction ts with
    | nil =>
      intro _ _
      simp [remSeed]
    | cons t rest ih =>
      intro hnd hact
      rw [List.map_cons, List.nodup_cons] at hnd
      rw [remSeed_cons]
      have hsplit : e.assignments.countP
          (fun q => decide ((q : TargetId × Assignment).1 ∈
              (t :: rest).map (fun t => (t : Target).id)) &&
            ((dictGet (active_targets e now) (q.2 : Assignment).target_id).isSome &&
              decide ((q.2 : Assignment).agent_id = a))) =
          e.assignments.countP
            (fun q => decide ((q : TargetId × Assignment).1 = t.id) &&
              ((dictGet (active_targets e now) (q.2 : Assignment).target_id).isSome &&
                decide ((q.2 : Assignment).agent_id = a))) +
          e.assignments.countP
            (fun q => decide ((q : TargetId × Assignment).1 ∈
                rest.map (fun t => (t : Target).id)) &&
              ((dictGet (active_targets e now) (q.2 : Assignment).target_id).isSome &&
                decide ((q.2 : Assignment).agent_id = a))) := by
        rw [← countP_disjoint_add]
        · apply List.countP_congr
          intro q _
          simp only [List.map_cons, List.mem_cons, Bool.or_eq_true, Bool.and_eq_true,
            decide_eq_true_eq]
          constructor
          · rintro ⟨hq1 | hq1, hq2⟩
            · exact Or.inl ⟨hq1, hq2⟩
            · exact Or.inr ⟨hq1, hq2⟩
          · rintro (⟨hq1, hq2⟩ | ⟨hq1, hq2⟩)
            · exact ⟨Or.inl hq1, hq2⟩
            · exact ⟨Or.inr hq1, hq2⟩
        · intro q _
          rintro ⟨hq1, hq2⟩
          simp only [Bool.and_eq_true, decide_eq_true_eq] at hq1 hq2
          exact hnd.1 (hq1.1 ▸ hq2.1)
      rw [hsplit]
      have hrest := ih hnd.2 (fun t2 ht2 => hact t2 (List.mem_cons_of_mem _ ht2))
      cases hcur : dictGet e.assignments t.id with
      | none =>
        exact Nat.le_trans (Nat.le_trans (Nat.le_of_eq (Nat.add_zero _)) hrest)
          (Nat.le_add_left _ _)
      | some cur =>
        by_cases hca : (cur : Assignment).agent_id = a
        · have hmem := mem_of_dictGet_eq_some hcur
          have h1 : 1 ≤ e.assignments.countP
              (fun q => decide ((q : TargetId × Assignment).1 = t.id) &&
                ((dictGet (active_targets e now) (q.2 : Assignment).target_id).isSome &&
                  decide ((q.2 : Assignment).agent_id = a))) := by
            rw [Nat.succ_le_iff, List.countP_pos]
            refine ⟨(t.id, cur), hmem, ?_⟩
            simp only [Bool.and_eq_true, decide_eq_true_eq]
            refine ⟨trivial, ?_, hca⟩
            rw [hwfa (t.id, cur) hmem]
            exact hact t (List.mem_cons_self _ _)
          simp only [hca, if_true]
          omega
        · simp only [hca, if_false]
          omega
  intro ts hnd hact
  refine Nat.le_trans (key ts hnd hact) (List.countP_mono_left ?_)
  intro q _
  simp only [Bool.and_eq_true, decide_eq_true_eq]
  rintro ⟨_, hq⟩
  exact hq

theorem v1_first_fit_capacity {agents : List (AgentId × Agent)}
    {load : AgentId → Nat} {row : List (AgentId × ℝ)} {aid : AgentId} {d : ℝ}
    (h : v1_first_fit agents load row = some (aid, d)) :
    load aid < capOf agents aid := by
  induction row with
  | nil => exact Option.noConfusion h
  | cons p rest ih =>
    obtain ⟨a2, d2⟩ := p
    unfold v1_first_fit at h
    by_cases hc : load a2 < capOf agents a2
    · rw [if_pos hc] at h
      simp only [Option.some.injEq, Prod.mk.injEq] at h
      obtain ⟨rfl, rfl⟩ := h
      exact hc
    · rw [if_neg hc] at h
      exact ih h

end ClaimC2Lemmas

section ClaimC2V1

open AssignmentModel

theorem sorted_active_ids_nodup (e : Engine) (now : ℝ) (hwf : WF e) :
    ((sorted_active e now).map (fun t => (t : Target).id)).Nodup := by
  unfold sorted_active
  have hperm := (sortByKey_perm (fun t => -(t : Target).confidence)
    ((active_targets e now).map Prod.snd)).map (fun t => (t : Target).id)
  rw [List.Perm.nodup_iff hperm]
  rw [List.map_map]
  have hcongr : ((active_targets e now).map
      ((fun t => (t : Target).id) ∘ Prod.snd)) = (active_targets e now).map Prod.fst := by
    apply List.map_congr_left
    intro p hp
    exact hwf.targets_id p (List.mem_of_mem_filter hp)
  rw [hcongr]
  exact ((List.filter_sublist _).map Prod.fst).nodup hwf.targets_nodup

theorem sorted_active_mem_active (e : Engine) (now : ℝ) (hwf : WF e) :
    ∀ t ∈ sorted_active e now,
      (dictGet (active_targets e now) (t : Target).id).isSome := by
  intro t ht
  have hperm := sortByKey_perm (fun t => -(t : Target).confidence)
    ((active_targets e now).map Prod.snd)
  have ht2 := hperm.mem_iff.1 ht
  obtain ⟨p, hp, rfl⟩ := List.mem_map.1 ht2
  rw [dictGet_isSome_iff_mem_keys]
  refine List.mem_map.2 ⟨p, hp, ?_⟩
  exact (hwf.targets_id p (List.mem_of_mem_filter hp)).symm

theorem v1_foldl_capacity (e : Engine) (now : ℝ)
    (matrix : List (TargetId × List (AgentId × ℝ))) :
    ∀ (ts : List Target) (st : List (TargetId × Assignment) × (AgentId → Nat)),
      ((ts.map (fun t => (t : Target).id)).Nodup) →
      (∀ t ∈ ts, dictGet st.1 (t : Target).id = none) →
      (∀ a, agent_count st.1 a ≤ st.2 a) →
      (∀ a, st.2 a ≤ capOf e.agents a) →
      ∀ a, agent_count ((ts.foldl (v1_step e now matrix) st).1) a ≤
        capOf e.agents a := by
  intro ts
  induction ts with
  | nil =>
    intro st _ _ hc hl a
    exact Nat.le_trans (hc a) (hl a)
  | cons tg rest ih =>
    intro st hnd hfresh hc hl a
    rw [List.map_cons, List.nodup_cons] at hnd
    rw [List.foldl_cons]
    cases hff : v1_first_fit e.agents st.2 ((dictGet matrix tg.id).getD []) with
    | none =>
      have hstep : v1_step e now matrix st tg = st := by
        unfold v1_step
        dsimp only
        rw [hff]
      rw [hstep]
      exact ih st hnd.2 (fun t ht => hfresh t (List.mem_cons_of_mem _ ht)) hc hl a
    | some p =>
      obtain ⟨aid, d⟩ := p
      have hcap := v1_first_fit_capacity hff
      have hstep : v1_step e now matrix st tg =
          (dictInsert st.1 tg.id { target_id := tg.id
                                   agent_id := aid
                                   distance := d
                                   timestamp := now },
           Function.update st.2 aid (st.2 aid + 1)) := by
        unfold v1_step
        dsimp only
        rw [hff]
      rw [hstep]
      refine ih _ hnd.2 ?_ ?_ ?_ a
      · intro t ht
        dsimp only
        rw [dictGet_dictInsert_ne _ _ _ _
          (fun hc2 => hnd.1 (by rw [hc2]; exact List.mem_map.2 ⟨t, ht, rfl⟩))]
        exact hfresh t (List.mem_cons_of_mem _ ht)
      · intro b
        dsimp only
        rw [agent_count_dictInsert_fresh _ _ _ _ (hfresh tg (List.mem_cons_self _ _))]
        dsimp only
        by_cases hb : aid = b
        · subst hb
          rw [Function.update_same]
          simp only [if_pos rfl]
          exact Nat.add_le_add_right (hc aid) 1
        · rw [Function.update_noteq (fun hc2 => hb hc2.symm)]
          simp only [if_neg hb, Nat.add_zero]
          exact hc b
      · intro b
        dsimp only
        by_cases hb : aid = b
        · subst hb
          rw [Function.update_same]
          exact hcap
        · rw [Function.update_noteq (fun hc2 => hb hc2.symm)]
          exact hl b

end ClaimC2V1

section ClaimC2V2

open AssignmentModel


theorem v2_step_inv (e : Engine) (now : ℝ)
    (matrix : List (TargetId × List (AgentId × ℝ)))
    (st : List (TargetId × Assignment) × (AgentId → Nat)) (tg : Target)
    (rest : List Target)
    (hfresh : dictGet st.1 tg.id = none)
    (hI : ∀ a, agent_count st.1 a + remSeed e (tg :: rest) a ≤ st.2 a)
    (hK : ∀ a ag, dictGet e.agents a = some ag →
      agent_count st.1 a + remSeed e (tg :: rest) a ≤ ag.max_assignments) :
    (∀ a, agent_count (v2_step e now matrix st tg).1 a + remSeed e rest a ≤
      (v2_step e now matrix st tg).2 a) ∧
    (∀ a ag, dictGet e.agents a = some ag →
      agent_count (v2_step e now matrix st tg).1 a + remSeed e rest a ≤
        ag.max_assignments) := by
  simp only [remSeed_cons] at hI hK
  cases hcur : dictGet e.assignments tg.id with
  | none =>
    simp only [hcur] at hI hK
    cases hbf : _best_available_agent e.agents st.2 none
        ((dictGet matrix tg.id).getD []) with
    | none =>
      have hv : v2_step e now matrix st tg = st := by
        unfold v2_step
        rw [hcur]
        dsimp only
        rw [hbf]
      rw [hv]
      refine ⟨fun a => ?_, fun a ag hag => ?_⟩
      · have := hI a
        omega
      · have := hK a ag hag
        omega
    | some p =>
      obtain ⟨b, d⟩ := p
      by_cases hb : b ≠ ""
      · have hmc := best_available_mem_and_capacity hbf
        have hv : v2_step e now matrix st tg =
            (dictInsert st.1 tg.id { target_id := tg.id
                                     agent_id := b
                                     distance := d
                                     timestamp := now },
             Function.update st.2 b (st.2 b + 1)) := by
          unfold v2_step
          rw [hcur]
          dsimp only
          rw [hbf]
          dsimp only
          rw [if_pos hb]
        rw [hv]
        refine ⟨fun a => ?_, fun a ag hag => ?_⟩
        · dsimp only
          rw [agent_count_dictInsert_fresh _ _ _ _ hfresh]
          dsimp only
          have hIa := hI a
          by_cases hab : b = a
          · rw [if_pos hab]
            subst hab
            rw [Function.update_same]
            omega
          · rw [if_neg hab, Function.update_noteq (Ne.symm hab)]
            omega
        · dsimp only
          rw [agent_count_dictInsert_fresh _ _ _ _ hfresh]
          dsimp only
          have hKa := hK a ag hag
          by_cases hab : b = a
          · rw [if_pos hab]
            subst hab
            have hIb := hI b
            have hcap : capOf e.agents b = ag.max_assignments := by
              unfold capOf
              rw [hag]
            rw [hcap] at hmc
            omega
          · rw [if_neg hab]
            omega
      · have hv : v2_step e now matrix st tg = st := by
          unfold v2_step
          rw [hcur]
          dsimp only
          rw [hbf]
          dsimp only
          rw [if_neg hb]
        rw [hv]
        refine ⟨fun a => ?_, fun a ag hag => ?_⟩
        · have := hI a
          omega
        · have := hK a ag hag
          omega
  | some cur =>
    simp only [hcur] at hI hK
    by_cases hinc : (dictGet e.agents cur.agent_id).isSome = true
    · have hkeeparith : ∀ dd : ℝ,
          (∀ a, agent_count (dictInsert st.1 tg.id
              { target_id := tg.id
                agent_id := cur.agent_id
                distance := dd
                timestamp := now }) a + remSeed e rest a ≤
            Function.update st.2 cur.agent_id (st.2 cur.agent_id + 1) a) ∧
          (∀ a ag, dictGet e.agents a = some ag →
            agent_count (dictInsert st.1 tg.id
                { target_id := tg.id
                  agent_id := cur.agent_id
                  distance := dd
                  timestamp := now }) a + remSeed e rest a ≤
              ag.max_assignments) := by
        intro dd
        refine ⟨fun a => ?_, fun a ag hag => ?_⟩
        · rw [agent_count_dictInsert_fresh _ _ _ _ hfresh]
          dsimp only
          have hIa := hI a
          by_cases hax : cur.agent_id = a
          · rw [if_pos hax] at hIa ⊢
            rw [hax, Function.update_same]
            omega
          · rw [if_neg hax] at hIa ⊢
            rw [Function.update_noteq (Ne.symm hax)]
            omega
        · rw [agent_count_dictInsert_fresh _ _ _ _ hfresh]
          dsimp only
          have hKa := hK a ag hag
          by_cases hax : cur.agent_id = a
          · rw [if_pos hax] at hKa ⊢
            omega
          · rw [if_neg hax] at hKa ⊢
            omega
      cases hbf : _best_available_agent e.agents st.2 (some cur.agent_id)
          ((dictGet matrix tg.id).getD []) with
      | none =>
        have hv : v2_step e now matrix st tg =
            (dictInsert st.1 tg.id { target_id := tg.id
                                     agent_id := cur.agent_id
                                     distance := (dictGet ((dictGet matrix tg.id).getD [])
                                       cur.agent_id).getD 0
                                     timestamp := now },
             Function.update st.2 cur.agent_id (st.2 cur.agent_id + 1)) := by
          unfold v2_step
          rw [hcur]
          dsimp only
          rw [hinc]
          rw [if_pos rfl]
          rw [hbf]
        rw [hv]
        refine ⟨fun a => ?_, fun a ag hag => ?_⟩
        · dsimp only
          exact (hkeeparith ((dictGet ((dictGet matrix tg.id).getD [])
            cur.agent_id).getD 0)).1 a
        · dsimp only
          exact (hkeeparith ((dictGet ((dictGet matrix tg.id).getD [])
            cur.agent_id).getD 0)).2 a ag hag
      | some p =>
        obtain ⟨b, d⟩ := p
        by_cases hcond : b ≠ "" ∧
            (dictGet ((dictGet matrix tg.id).getD []) cur.agent_id).getD 0 - d >
              e.reassign_threshold
        · have hbx : b ≠ cur.agent_id := best_available_ne_exclude hbf
          have hmc := best_available_mem_and_capacity hbf
          have hv : v2_step e now matrix st tg =
              (dictInsert st.1 tg.id { target_id := tg.id
                                       agent_id := b
                                       distance := d
                                       timestamp := now },
               Function.update
                 (Function.update st.2 cur.agent_id (st.2 cur.agent_id - 1)) b
                 (Function.update st.2 cur.agent_id (st.2 cur.agent_id - 1) b + 1)) := by
            unfold v2_step
            rw [hcur]
            dsimp only
            rw [hinc]
            rw [if_pos rfl]
            rw [hbf]
            dsimp only
            rw [if_pos hcond]
          rw [hv]
          refine ⟨fun a => ?_, fun a ag hag => ?_⟩
          · dsimp only
            rw [agent_count_dictInsert_fresh _ _ _ _ hfresh]
            dsimp only
            have hIa := hI a
            by_cases hab : b = a
            · rw [if_pos hab]
              subst hab
              rw [Function.update_same, Function.update_noteq hbx]
              rw [if_neg (Ne.symm hbx)] at hIa
              omega
            · rw [if_neg hab, Function.update_noteq (Ne.symm hab)]
              by_cases hax : cur.agent_id = a
              · rw [if_pos hax] at hIa
                rw [hax, Function.update_same]
                omega
              · rw [if_neg hax] at hIa
                rw [Function.update_noteq (Ne.symm hax)]
                omega
          · dsimp only
            rw [agent_count_dictInsert_fresh _ _ _ _ hfresh]
            dsimp only
            have hKa := hK a ag hag
            by_cases hab : b = a
            · rw [if_pos hab]
              subst hab
              have hIb := hI b
              rw [if_neg (Ne.symm hbx)] at hIb
              have hcap : capOf e.agents b = ag.max_assignments := by
                unfold capOf
                rw [hag]
              rw [hcap] at hmc
              omega
            · rw [if_neg hab]
              by_cases hax : cur.agent_id = a
              · rw [if_pos hax] at hKa
                omega
              · rw [if_neg hax] at hKa
                omega
        · have hv : v2_step e now matrix st tg =
              (dictInsert st.1 tg.id { target_id := tg.id
                                       agent_id := cur.agent_id
                                       distance := (dictGet ((dictGet matrix tg.id).getD [])
                                         cur.agent_id).getD 0
                                       timestamp := now },
               Function.update st.2 cur.agent_id (st.2 cur.agent_id + 1)) := by
            unfold v2_step
            rw [hcur]
            dsimp only
            rw [hinc]
            rw [if_pos rfl]
            rw [hbf]
            dsimp only
            rw [if_neg hcond]
          rw [hv]
          refine ⟨fun a => ?_, fun a ag hag => ?_⟩
          · dsimp only
            exact (hkeeparith ((dictGet ((dictGet matrix tg.id).getD [])
              cur.agent_id).getD 0)).1 a
          · dsimp only
            exact (hkeeparith ((dictGet ((dictGet matrix tg.id).getD [])
              cur.agent_id).getD 0)).2 a ag hag
    · have hxnone : dictGet e.agents cur.agent_id = none := by
        cases hq : dictGet e.agents cur.agent_id with
        | none => rfl
        | some z =>
          rw [hq] at hinc
          exact absurd rfl hinc
      have hxf : (dictGet e.agents cur.agent_id).isSome = false := by
        rw [hxnone]
        rfl
      cases hbf : _best_available_agent e.agents st.2 none
          ((dictGet matrix tg.id).getD []) with
      | none =>
        have hv : v2_step e now matrix st tg = st := by
          unfold v2_step
          rw [hcur]
          dsimp only
          rw [hxf]
          simp only [Bool.false_eq_true, if_false]
          rw [hbf]
        rw [hv]
        refine ⟨fun a => ?_, fun a ag hag => ?_⟩
        · have hIa := hI a
          by_cases hax : cur.agent_id = a
          · rw [if_pos hax] at hIa
            omega
          · rw [if_neg hax] at hIa
            omega
        · have hKa := hK a ag hag
          by_cases hax : cur.agent_id = a
          · rw [if_pos hax] at hKa
            omega
          · rw [if_neg hax] at hKa
            omega
      | some p =>
        obtain ⟨b, d⟩ := p
        by_cases hb : b ≠ ""
        · have hmc := best_available_mem_and_capacity hbf
          have hbx : b ≠ cur.agent_id := by
            intro h2
            rw [h2] at hmc
            have hz : capOf e.agents cur.agent_id = 0 := by
              unfold capOf
              rw [hxnone]
            rw [hz] at hmc
            exact Nat.not_lt_zero _ hmc.2
          have hv : v2_step e now matrix st tg =
              (dictInsert st.1 tg.id { target_id := tg.id
                                       agent_id := b
                                       distance := d
                                       timestamp := now },
               Function.update st.2 b (st.2 b + 1)) := by
            unfold v2_step
            rw [hcur]
            dsimp only
            rw [hxf]
            simp only [Bool.false_eq_true, if_false]
            rw [hbf]
            dsimp only
            rw [if_pos hb]
          rw [hv]
          refine ⟨fun a => ?_, fun a ag hag => ?_⟩
          · dsimp only
            rw [agent_count_dictInsert_fresh _ _ _ _ hfresh]
            dsimp only
            have hIa := hI a
            by_cases hab : b = a
            · rw [if_pos hab]
              subst hab
              rw [Function.update_same]
              rw [if_neg (Ne.symm hbx)] at hIa
              omega
            · rw [if_neg hab, Function.update_noteq (Ne.symm hab)]
              by_cases hax : cur.agent_id = a
              · rw [if_pos hax] at hIa
                omega
              · rw [if_neg hax] at hIa
                omega
          · dsimp only
            rw [agent_count_dictInsert_fresh _ _ _ _ hfresh]
            dsimp only
            have hKa := hK a ag hag
            by_cases hab : b = a
            · rw [if_pos hab]
              subst hab
              have hIb := hI b
              rw [if_neg (Ne.symm hbx)] at hIb
              have hcap : capOf e.agents b = ag.max_assignments := by
                unfold capOf
                rw [hag]
              rw [hcap] at hmc
              omega
            · rw [if_neg hab]
              by_cases hax : cur.agent_id = a
              · rw [if_pos hax] at hKa
                omega
              · rw [if_neg hax] at hKa
                omega
        · have hv : v2_step e now matrix st tg = st := by
            unfold v2_step
            rw [hcur]
            dsimp only
            rw [hxf]
            simp only [Bool.false_eq_true, if_false]
            rw [hbf]
            dsimp only
            rw [if_neg hb]
          rw [hv]
          refine ⟨fun a => ?_, fun a ag hag => ?_⟩
          · have hIa := hI a
            by_cases hax : cur.agent_id = a
            · rw [if_pos hax] at hIa
              omega
            · rw [if_neg hax] at hIa
              omega
          · have hKa := hK a ag hag
            by_cases hax : cur.agent_id = a
            · rw [if_pos hax] at hKa
              omega
            · rw [if_neg hax] at hKa
              omega

end ClaimC2V2

section ClaimC2Main

open AssignmentModel

theorem v2_foldl_inv (e : Engine) (now : ℝ)
    (matrix : List (TargetId × List (AgentId × ℝ))) :
    ∀ (ts : List Target) (st : List (TargetId × Assignment) × (AgentId → Nat)),
      ((ts.map (fun t => (t : Target).id)).Nodup) →
      (∀ t ∈ ts, dictGet st.1 (t : Target).id = none) →
      (∀ a, agent_count st.1 a + remSeed e ts a ≤ st.2 a) →
      (∀ a ag, dictGet e.agents a = some ag →
        agent_count st.1 a + remSeed e ts a ≤ ag.max_assignments) →
      ∀ a ag, dictGet e.agents a = some ag →
        agent_count ((ts.foldl (v2_step e now matrix) st).1) a ≤ ag.max_assignments := by
  intro ts
  induction ts with
  | nil =>
    intro st _ _ _ hK a ag hag
    have hKa := hK a ag hag
    unfold remSeed at hKa
    rw [List.countP_nil] at hKa
    rw [List.foldl_nil]
    omega
  | cons t ts ih =>
    intro st hnd hfr hI hK a ag hag
    rw [List.map_cons, List.nodup_cons] at hnd
    rw [List.foldl_cons]
    have hfresh : dictGet st.1 t.id = none := hfr t (List.mem_cons_self _ _)
    have hstep := v2_step_inv e now matrix st t ts hfresh hI hK
    refine ih (v2_step e now matrix st t) hnd.2 ?_ hstep.1 hstep.2 a ag hag
    intro u hu
    rw [v2_step_fst_lookup_ne e now matrix st t
      (fun hc2 => hnd.1 (by rw [hc2]; exact List.mem_map.2 ⟨u, hu, rfl⟩))]
    exact hfr u (List.mem_cons_of_mem _ hu)

/-- C2 (amended).  Capacity invariant after applying a new assignment set.
For a well-formed engine: (a) after a v1 greedy run, every agent of the
agent table appears as `agent_id` in at most `max_assignments` records of
the new assignment table — unconditionally; (b) after a v2 anti-thrash run
the same bound holds PROVIDED the seeded load (the engine's prior
assignment records whose target is still active) already respects every
agent's current cap.  The proviso is forced by the code: the v2 keep and
reassign branches bypass the capacity guard, so prior records in excess of
a (possibly lowered) cap are carried over verbatim. -/
theorem capacity_invariant (e : Engine) (now : ℝ) (hwf : WF e) :
    (∀ a ag, dictGet e.agents a = some ag →
      agent_count (_assign_v1_greedy e now).assignments a ≤ ag.max_assignments) ∧
    ((∀ a ag, dictGet e.agents a = some ag →
        e.assignments.countP
          (fun q => (dictGet (active_targets e now) (q.2 : Assignment).target_id).isSome &&
            decide ((q.2 : Assignment).agent_id = a)) ≤ ag.max_assignments) →
      ∀ a ag, dictGet e.agents a = some ag →
        agent_count (_assign_v2_antithrash e now).assignments a ≤ ag.max_assignments) := by
  constructor
  · intro a ag hag
    have hv1 : (_assign_v1_greedy e now).assignments =
        ((sorted_active e now).foldl (v1_step e now (compute_distance_matrix e now))
          ([], fun _ => 0)).1 := rfl
    rw [hv1]
    have hcap : capOf e.agents a = ag.max_assignments := by
      unfold capOf
      rw [hag]
    rw [← hcap]
    refine v1_foldl_capacity e now (compute_distance_matrix e now) (sorted_active e now)
      ([], fun _ => 0) (sorted_active_ids_nodup e now hwf)
      (fun t _ => rfl) ?_ (fun b => Nat.zero_le _) a
    intro b
    unfold agent_count
    rw [List.countP_nil]
  · intro hseed a ag hag
    have hv2 : (_assign_v2_antithrash e now).assignments =
        ((sorted_active e now).foldl (v2_step e now (compute_distance_matrix e now))
          ([], seed_load e now)).1 := rfl
    rw [hv2]
    refine v2_foldl_inv e now (compute_distance_matrix e now) (sorted_active e now)
      ([], seed_load e now) (sorted_active_ids_nodup e now hwf)
      (fun t _ => rfl) ?_ ?_ a ag hag
    · intro b
      have h1 : agent_count ([] : List (TargetId × Assignment)) b = 0 := by
        unfold agent_count
        rw [List.countP_nil]
      rw [h1, Nat.zero_add]
      show remSeed e (sorted_active e now) b ≤ seed_load e now b
      rw [seed_load_spec]
      exact remSeed_le_seed e now b hwf.assignments_id (sorted_active e now)
        (sorted_active_ids_nodup e now hwf) (sorted_active_mem_active e now hwf)
    · intro b bg hbg
      have h1 : agent_count ([] : List (TargetId × Assignment)) b = 0 := by
        unfold agent_count
        rw [List.countP_nil]
      rw [h1, Nat.zero_add]
      exact Nat.le_trans
        (remSeed_le_seed e now b hwf.assignments_id (sorted_active e now)
          (sorted_active_ids_nodup e now hwf) (sorted_active_mem_active e now hwf))
        (hseed b bg hbg)

theorem capacity_invariant_witness :
    agent_count (_assign_v1_greedy
      { agents := [("A", { id := "A", position := { x := 0, y := 0 } })]
        targets := [(1, { id := 1, position := { x := 0, y := 0 }, last_seen := 0 })]
        assignments := [] } 1).assignments "A" ≤ 1 ∧
    agent_count (_assign_v2_antithrash
      { agents := [("A", { id := "A", position := { x := 0, y := 0 } })]
        targets := [(1, { id := 1, position := { x := 0, y := 0 }, last_seen := 0 })]
        assignments := [] } 1).assignments "A" ≤ 1 := by
  have hwf : WF { agents := [("A", { id := "A", position := { x := 0, y := 0 } })]
                  targets := [(1, { id := 1, position := { x := 0, y := 0 },
                                    last_seen := 0 })]
                  assignments := [] } := by
    refine ⟨?_, ?_, ?_, ?_, ?_, ?_⟩
    · simp
    · simp
    · simp
    · intro p hp
      rw [List.mem_singleton] at hp
      subst hp
      rfl
    · intro p hp
      rw [List.mem_singleton] at hp
      subst hp
      rfl
    · intro p hp
      simp at hp
  have h := capacity_invariant _ 1 hwf
  exact ⟨h.1 "A" { id := "A", position := { x := 0, y := 0 } } rfl,
    h.2 (fun a ag _ => Nat.zero_le _) "A"
      { id := "A", position := { x := 0, y := 0 } } rfl⟩

end ClaimC2Main

section ClaimC2CE

open AssignmentModel

theorem v2_step_keep_none (e : Engine) (now : ℝ)
    (matrix : List (TargetId × List (AgentId × ℝ)))
    (st : List (TargetId × Assignment) × (AgentId → Nat)) (t : Target)
    (cur : Assignment) (incumbent : Agent) (d0 : ℝ)
    (hcur : dictGet e.assignments t.id = some cur)
    (hinc : dictGet e.agents cur.agent_id = some incumbent)
    (hrow : dictGet ((dictGet matrix t.id).getD []) cur.agent_id = some d0)
    (hbest : _best_available_agent e.agents st.2 (some cur.agent_id)
      ((dictGet matrix t.id).getD []) = none) :
    v2_step e now matrix st t =
      (dictInsert st.1 t.id
        { target_id := t.id, agent_id := cur.agent_id, distance := d0,
          timestamp := now },
       Function.update st.2 cur.agent_id (st.2 cur.agent_id + 1)) := by
  unfold v2_step
  rw [hcur]
  simp only [hinc, Option.isSome_some, if_true, hrow, Option.getD_some]
  rw [hbest]

/-- C2 counterexample: one agent `A` with `max_assignments = 1`, two active
targets both already assigned to `A` in the prior assignment table (such a
table arises e.g. when `A`'s cap is lowered by `update_agent` between
runs, whose default `max_assignments` is 1).  The v2 run seeds `A`'s load
with 2, keeps both incumbent assignments — the keep branch has no capacity
check — and commits an assignment table in which `A` appears twice,
exceeding its cap of 1.  The claimed invariant fails for v2 without a
precondition on the seeded load. -/
theorem capacity_invariant_fails_v2_overloaded_seed :
    dictGet
      ({ agents := [("A", { id := "A", position := { x := 0, y := 0 } })]
         targets := [(1, { id := 1, position := { x := 0, y := 0 }, last_seen := 0 }),
                     (2, { id := 2, position := { x := 0, y := 0 }, last_seen := 0 })]
         assignments := [(1, { target_id := 1
                               agent_id := "A"
                               distance := 0
                               timestamp := 0 }),
                         (2, { target_id := 2
                               agent_id := "A"
                               distance := 0
                               timestamp := 0 })] } : Engine).agents "A" =
      some { id := "A", position := { x := 0, y := 0 } } ∧
    ({ id := "A", position := { x := 0, y := 0 } } : Agent).max_assignments = 1 ∧
    agent_count (_assign_v2_antithrash
      { agents := [("A", { id := "A", position := { x := 0, y := 0 } })]
        targets := [(1, { id := 1, position := { x := 0, y := 0 }, last_seen := 0 }),
                    (2, { id := 2, position := { x := 0, y := 0 }, last_seen := 0 })]
        assignments := [(1, { target_id := 1
                              agent_id := "A"
                              distance := 0
                              timestamp := 0 }),
                        (2, { target_id := 2
                              agent_id := "A"
                              distance := 0
                              timestamp := 0 })] } 1).assignments "A" = 2 := by
  set eC : Engine :=
    { agents := [("A", { id := "A", position := { x := 0, y := 0 } })]
      targets := [(1, { id := 1, position := { x := 0, y := 0 }, last_seen := 0 }),
                  (2, { id := 2, position := { x := 0, y := 0 }, last_seen := 0 })]
      assignments := [(1, { target_id := 1
                            agent_id := "A"
                            distance := 0
                            timestamp := 0 }),
                      (2, { target_id := 2
                            agent_id := "A"
                            distance := 0
                            timestamp := 0 })] } with heC
  refine ⟨by rw [heC]; rfl, rfl, ?_⟩
  have hmat : compute_distance_matrix eC 1 =
      [(1, [("A", 0)]), (2, [("A", 0)])] := by
    rw [heC]
    unfold compute_distance_matrix active_targets distance_row
    norm_num [List.filter_cons, sortByKey, insertAsc,
      distance_to_horizontal 0 0 0 (by norm_num)]
  have hsorted : sorted_active eC 1 =
      [{ id := 1, position := { x := 0, y := 0 }, last_seen := 0 },
       { id := 2, position := { x := 0, y := 0 }, last_seen := 0 }] := by
    rw [heC]
    unfold sorted_active active_targets
    norm_num [List.filter_cons, sortByKey, insertAsc]
  have hb1 : ∀ load : AgentId → Nat,
      _best_available_agent eC.agents load (some "A") [("A", (0:ℝ))] = none := by
    intro load
    rw [heC]
    simp [_best_available_agent]
  have hres : (_assign_v2_antithrash eC 1).assignments =
      ((sorted_active eC 1).foldl
        (v2_step eC 1 (compute_distance_matrix eC 1))
        ([], seed_load eC 1)).1 := rfl
  have hs1 := v2_step_keep_none eC 1 (compute_distance_matrix eC 1)
    ([], seed_load eC 1)
    { id := 1, position := { x := 0, y := 0 }, last_seen := 0 }
    { target_id := 1, agent_id := "A", distance := 0, timestamp := 0 }
    { id := "A", position := { x := 0, y := 0 } } 0
    (by rw [heC]; rfl)
    (by rw [heC]; rfl)
    (by rw [hmat]; rfl)
    (by rw [hmat]; exact hb1 _)
  have hs2 := v2_step_keep_none eC 1 (compute_distance_matrix eC 1)
    (dictInsert ([] : List (TargetId × Assignment)) 1
      { target_id := 1, agent_id := "A", distance := 0, timestamp := 1 },
     Function.update (([] : List (TargetId × Assignment)), seed_load eC 1).2 "A"
       ((([] : List (TargetId × Assignment)), seed_load eC 1).2 "A" + 1))
    { id := 2, position := { x := 0, y := 0 }, last_seen := 0 }
    { target_id := 2, agent_id := "A", distance := 0, timestamp := 0 }
    { id := "A", position := { x := 0, y := 0 } } 0
    (by rw [heC]; rfl)
    (by rw [heC]; rfl)
    (by rw [hmat]; rfl)
    (by rw [hmat]; exact hb1 _)
  rw [hres, hsorted, List.foldl_cons, List.foldl_cons, List.foldl_nil, hs1, hs2]
  dsimp only
  norm_num [agent_count, dictInsert, dictGet, List.countP_cons]

end ClaimC2CE

section ClaimC4Helpers

open Fusion

theorem sqrt_one_add_div_sq (x y : ℝ) (hx : x ≠ 0) :
    Real.sqrt (1 + (y / x) ^ 2) = Real.sqrt (x ^ 2 + y ^ 2) / |x| := by
  rw [show 1 + (y / x) ^ 2 = (x ^ 2 + y ^ 2) / x ^ 2 by field_simp]
  rw [Real.sqrt_div (by positivity) (x ^ 2), Real.sqrt_sq_eq_abs]

theorem sqrt_mul_cos_atan2 (x y : ℝ) :
    Real.sqrt (x ^ 2 + y ^ 2) * Real.cos (atan2 y x) = x := by
  rcases lt_trichotomy x 0 with hx | hx | hx
  · have hxne : x ≠ 0 := ne_of_lt hx
    have hpos : 0 < x ^ 2 + y ^ 2 := by
      nlinarith [pow_two_pos_of_ne_zero hxne, sq_nonneg y]
    have hSne : Real.sqrt (x ^ 2 + y ^ 2) ≠ 0 := ne_of_gt (Real.sqrt_pos.2 hpos)
    unfold atan2
    rw [if_neg (not_lt.2 hx.le), if_pos hx]
    by_cases hy : 0 ≤ y
    · rw [if_pos hy, Real.cos_add_pi, Real.cos_arctan, sqrt_one_add_div_sq x y hxne,
        abs_of_neg hx]
      field_simp
    · rw [if_neg hy, Real.cos_sub_pi, Real.cos_arctan, sqrt_one_add_div_sq x y hxne,
        abs_of_neg hx]
      field_simp
  · subst hx
    unfold atan2
    rw [if_neg (lt_irrefl 0), if_neg (lt_irrefl 0)]
    rcases lt_trichotomy y 0 with hy | hy | hy
    · rw [if_neg (not_lt.2 hy.le), if_pos hy, Real.cos_neg, Real.cos_pi_div_two, mul_zero]
    · subst hy
      rw [if_neg (lt_irrefl 0), if_neg (lt_irrefl 0), Real.cos_zero, mul_one,
        show ((0:ℝ) ^ 2 + 0 ^ 2) = 0 by norm_num, Real.sqrt_zero]
    · rw [if_pos hy, Real.cos_pi_div_two, mul_zero]
  · have hxne : x ≠ 0 := ne_of_gt hx
    have hpos : 0 < x ^ 2 + y ^ 2 := by
      nlinarith [pow_two_pos_of_ne_zero hxne, sq_nonneg y]
    have hSne : Real.sqrt (x ^ 2 + y ^ 2) ≠ 0 := ne_of_gt (Real.sqrt_pos.2 hpos)
    unfold atan2
    rw [if_pos hx, Real.cos_arctan, sqrt_one_add_div_sq x y hxne, abs_of_pos hx]
    field_simp

theorem sqrt_mul_sin_atan2 (x y : ℝ) :
    Real.sqrt (x ^ 2 + y ^ 2) * Real.sin (atan2 y x) = y := by
  rcases lt_trichotomy x 0 with hx | hx | hx
  · have hxne : x ≠ 0 := ne_of_lt hx
    have hpos : 0 < x ^ 2 + y ^ 2 := by
      nlinarith [pow_two_pos_of_ne_zero hxne, sq_nonneg y]
    have hSne : Real.sqrt (x ^ 2 + y ^ 2) ≠ 0 := ne_of_gt (Real.sqrt_pos.2 hpos)
    unfold atan2
    rw [if_neg (not_lt.2 hx.le), if_pos hx]
    by_cases hy : 0 ≤ y
    · rw [if_pos hy, Real.sin_add_pi, Real.sin_arctan, sqrt_one_add_div_sq x y hxne,
        abs_of_neg hx]
      field_simp
      ring
    · rw [if_neg hy, Real.sin_sub_pi, Real.sin_arctan, sqrt_one_add_div_sq x y hxne,
        abs_of_neg hx]
      field_simp
      ring
  · subst hx
    unfold atan2
    rw [if_neg (lt_irrefl 0), if_neg (lt_irrefl 0)]
    rcases lt_trichotomy y 0 with hy | hy | hy
    · rw [if_neg (not_lt.2 hy.le), if_pos hy, Real.sin_neg, Real.sin_pi_div_two,
        show ((0:ℝ) ^ 2 + y ^ 2) = y ^ 2 by ring, Real.sqrt_sq_eq_abs,
        abs_of_neg hy]
      ring
    · subst hy
      rw [if_neg (lt_irrefl 0), if_neg (lt_irrefl 0), Real.sin_zero, mul_zero]
    · rw [if_pos hy, Real.sin_pi_div_two, mul_one,
        show ((0:ℝ) ^ 2 + y ^ 2) = y ^ 2 by ring, Real.sqrt_sq_eq_abs,
        abs_of_pos hy]
  · have hxne : x ≠ 0 := ne_of_gt hx
    have hpos : 0 < x ^ 2 + y ^ 2 := by
      nlinarith [pow_two_pos_of_ne_zero hxne, sq_nonneg y]
    have hSne : Real.sqrt (x ^ 2 + y ^ 2) ≠ 0 := ne_of_gt (Real.sqrt_pos.2 hpos)
    unfold atan2
    rw [if_pos hx, Real.sin_arctan, sqrt_one_add_div_sq x y hxne, abs_of_pos hx]
    field_simp

theorem cos_heading_plus_wrap (w h : ℝ) :
    Real.cos (h + (pymod (w - h + Real.pi) (2 * Real.pi) - Real.pi)) = Real.cos w := by
  unfold pymod
  rw [show h + (w - h + Real.pi - 2 * Real.pi * ⌊(w - h + Real.pi) / (2 * Real.pi)⌋ -
      Real.pi) = w - ⌊(w - h + Real.pi) / (2 * Real.pi)⌋ * (2 * Real.pi) by ring]
  exact Real.cos_sub_int_mul_two_pi _ _

theorem sin_heading_plus_wrap (w h : ℝ) :
    Real.sin (h + (pymod (w - h + Real.pi) (2 * Real.pi) - Real.pi)) = Real.sin w := by
  unfold pymod
  rw [show h + (w - h + Real.pi - 2 * Real.pi * ⌊(w - h + Real.pi) / (2 * Real.pi)⌋ -
      Real.pi) = w - ⌊(w - h + Real.pi) / (2 * Real.pi)⌋ * (2 * Real.pi) by ring]
  exact Real.sin_sub_int_mul_two_pi _ _

theorem estimate_position_world_x (camera : CameraConfig) (bbox : Bbox) (ph : ℝ) :
    (estimate_position camera bbox ph).world_x =
      camera.x + ph * focal_length_px_vertical camera.image_width camera.image_height
          camera.hfov_deg / max |bbox.y2 - bbox.y1| 1 *
        Real.cos (radians camera.heading_deg +
          atan2 (-((bbox.x1 + bbox.x2) / 2 - camera.image_width / 2))
            (focal_length_px camera.image_width camera.hfov_deg)) := rfl

theorem estimate_position_world_y (camera : CameraConfig) (bbox : Bbox) (ph : ℝ) :
    (estimate_position camera bbox ph).world_y =
      camera.y + ph * focal_length_px_vertical camera.image_width camera.image_height
          camera.hfov_deg / max |bbox.y2 - bbox.y1| 1 *
        Real.sin (radians camera.heading_deg +
          atan2 (-((bbox.x1 + bbox.x2) / 2 - camera.image_width / 2))
            (focal_length_px camera.image_width camera.hfov_deg)) := rfl

end ClaimC4Helpers

section ClaimC4

open Fusion

/-- C4 (amended).  Exact round trip of the two projections.  For every
camera configuration with positive image dimensions and a horizontal FOV
strictly between 0 and 180 degrees, every positive person height, and
every world point for which `world_to_bbox` returns a bbox, whose true
camera distance is at least the source's 0.1 m clamp floor, and whose
projected bbox height is at least the 1 px floor of `distance_from_bbox`:
feeding the bbox into `estimate_position` recovers the world point
EXACTLY (so in particular within the claimed 1e-3 m).  Inside the 0.1 m
clamp the round trip is off by more than 1e-3 (see the counterexample), so
the distance proviso cannot be dropped. -/
theorem estimate_world_round_trip (camera : CameraConfig) (X Y ph : ℝ) (bbox : Bbox)
    (hw : world_to_bbox camera X Y ph = some bbox)
    (hd : 0.1 ≤ Real.sqrt ((X - camera.x) * (X - camera.x) +
      (Y - camera.y) * (Y - camera.y)))
    (hfov1 : 0 < camera.hfov_deg) (hfov2 : camera.hfov_deg < 180)
    (hW : 0 < camera.image_width) (hH : 0 < camera.image_height)
    (hph : 0 < ph)
    (hhpx : 1 ≤ ph * focal_length_px_vertical camera.image_width camera.image_height
        camera.hfov_deg /
      Real.sqrt ((X - camera.x) * (X - camera.x) + (Y - camera.y) * (Y - camera.y))) :
    (estimate_position camera bbox ph).world_x = X ∧
    (estimate_position camera bbox ph).world_y = Y := by
  have hrad1 : 0 < radians camera.hfov_deg / 2 := by
    unfold radians
    exact div_pos (div_pos (mul_pos hfov1 Real.pi_pos) (by norm_num)) (by norm_num)
  have hrad2 : radians camera.hfov_deg / 2 < Real.pi / 2 := by
    unfold radians
    nlinarith [Real.pi_pos,
      mul_pos (show (0:ℝ) < 180 - camera.hfov_deg by linarith) Real.pi_pos]
  have hhalf : radians (camera.hfov_deg / 2) = radians camera.hfov_deg / 2 := by
    unfold radians
    ring
  have htan : 0 < Real.tan (radians camera.hfov_deg / 2) :=
    Real.tan_pos_of_pos_of_lt_pi_div_two hrad1 hrad2
  have hfh : 0 < focal_length_px camera.image_width camera.hfov_deg := by
    unfold focal_length_px
    exact div_pos hW (mul_pos (by norm_num) htan)
  have hfv : 0 < focal_length_px_vertical camera.image_width camera.image_height
      camera.hfov_deg := by
    unfold focal_length_px_vertical
    exact div_pos hH (mul_pos (by norm_num) (mul_pos htan (div_pos hH hW)))
  have hS0 : (0:ℝ) < Real.sqrt ((X - camera.x) * (X - camera.x) +
      (Y - camera.y) * (Y - camera.y)) := lt_of_lt_of_le (by norm_num) hd
  unfold world_to_bbox at hw
  cases hg : is_in_fov camera X Y 8 with
  | false =>
    rw [hg] at hw
    simp only [Bool.false_eq_true, if_false] at hw
    exact Option.noConfusion hw
  | true =>
    rw [hg] at hw
    rw [if_pos rfl] at hw
    dsimp only at hw
    rw [if_neg (not_lt.2 hd)] at hw
    have hb := Option.some.inj hw
    unfold is_in_fov at hg
    dsimp only at hg
    by_cases h8 : Real.sqrt ((X - camera.x) * (X - camera.x) +
        (Y - camera.y) * (Y - camera.y)) > 8
    · rw [if_pos h8] at hg
      exact Bool.noConfusion hg
    · rw [if_neg h8] at hg
      rw [if_neg (not_lt.2 (le_trans (by norm_num) hd))] at hg
      have hang := of_decide_eq_true hg
      rw [hhalf] at hang
      have habs := abs_le.1 hang
      have hA1 : -(Real.pi / 2) < pymod (atan2 (Y - camera.y) (X - camera.x) -
          radians camera.heading_deg + Real.pi) (2 * Real.pi) - Real.pi := by
        have := habs.1
        linarith
      have hA2 : pymod (atan2 (Y - camera.y) (X - camera.x) -
          radians camera.heading_deg + Real.pi) (2 * Real.pi) - Real.pi <
          Real.pi / 2 := lt_of_le_of_lt habs.2 hrad2
      have hoff : -((bbox.x1 + bbox.x2) / 2 - camera.image_width / 2) =
          focal_length_px camera.image_width camera.hfov_deg *
            Real.tan (pymod (atan2 (Y - camera.y) (X - camera.x) -
              radians camera.heading_deg + Real.pi) (2 * Real.pi) - Real.pi) := by
        rw [← hb]
        dsimp only
        ring
      have hy21 : bbox.y2 - bbox.y1 =
          ph * focal_length_px_vertical camera.image_width camera.image_height
            camera.hfov_deg /
          Real.sqrt ((X - camera.x) * (X - camera.x) +
            (Y - camera.y) * (Y - camera.y)) := by
        rw [← hb]
        dsimp only
        ring
      have hmax : max |bbox.y2 - bbox.y1| 1 =
          ph * focal_length_px_vertical camera.image_width camera.image_height
            camera.hfov_deg /
          Real.sqrt ((X - camera.x) * (X - camera.x) +
            (Y - camera.y) * (Y - camera.y)) := by
        rw [hy21, abs_of_pos (div_pos (mul_pos hph hfv) hS0)]
        exact max_eq_left hhpx
      have hdm : ph * focal_length_px_vertical camera.image_width camera.image_height
            camera.hfov_deg /
          (ph * focal_length_px_vertical camera.image_width camera.image_height
            camera.hfov_deg /
          Real.sqrt ((X - camera.x) * (X - camera.x) +
            (Y - camera.y) * (Y - camera.y))) =
          Real.sqrt ((X - camera.x) * (X - camera.x) +
            (Y - camera.y) * (Y - camera.y)) := by
        rw [div_div_eq_mul_div, mul_div_cancel_left₀ _ (ne_of_gt (mul_pos hph hfv))]
      have hatan : atan2 (focal_length_px camera.image_width camera.hfov_deg *
            Real.tan (pymod (atan2 (Y - camera.y) (X - camera.x) -
              radians camera.heading_deg + Real.pi) (2 * Real.pi) - Real.pi))
          (focal_length_px camera.image_width camera.hfov_deg) =
          pymod (atan2 (Y - camera.y) (X - camera.x) -
            radians camera.heading_deg + Real.pi) (2 * Real.pi) - Real.pi := by
        rw [atan2_of_pos _ _ hfh, mul_div_cancel_left₀ _ (ne_of_gt hfh)]
        exact Real.arctan_tan hA1 hA2
      have hsq : (X - camera.x) * (X - camera.x) + (Y - camera.y) * (Y - camera.y) =
          (X - camera.x) ^ 2 + (Y - camera.y) ^ 2 := by
        ring
      constructor
      · rw [estimate_position_world_x, hoff, hatan, hmax, hdm, cos_heading_plus_wrap,
          hsq, sqrt_mul_cos_atan2]
        ring
      · rw [estimate_position_world_y, hoff, hatan, hmax, hdm, sin_heading_plus_wrap,
          hsq, sqrt_mul_sin_atan2]
        ring

end ClaimC4

section ClaimC4Closed

open Fusion

theorem pymod_pi_two_pi : pymod Real.pi (2 * Real.pi) = Real.pi := by
  unfold pymod
  rw [show Real.pi / (2 * Real.pi) = 1 / 2 by
    rw [div_eq_div_iff (ne_of_gt (by positivity)) (by norm_num)]
    ring]
  rw [show ⌊(1:ℝ) / 2⌋ = 0 from by
    rw [Int.floor_eq_zero_iff]
    norm_num [Set.mem_Ico]]
  push_cast
  ring

/-- C4 witness: the default 640 x 480, 60-degree camera at the origin with
heading 0, and the world point (4, 0): 4 m away on the optical axis, well
clear of the 0.1 m clamp, bbox height 136 * sqrt 3 > 1 px — the round trip
through `world_to_bbox` and `estimate_position` recovers (4, 0) exactly. -/
theorem estimate_world_round_trip_witness :
    world_to_bbox { camera_id := "c", x := 0, y := 0, heading_deg := 0 } 4 0 1.7 =
      some ⟨320 - 27.2 * Real.sqrt 3, 240 - 68 * Real.sqrt 3,
            320 + 27.2 * Real.sqrt 3, 240 + 68 * Real.sqrt 3⟩ ∧
    (estimate_position { camera_id := "c", x := 0, y := 0, heading_deg := 0 }
      ⟨320 - 27.2 * Real.sqrt 3, 240 - 68 * Real.sqrt 3,
       320 + 27.2 * Real.sqrt 3, 240 + 68 * Real.sqrt 3⟩ 1.7).world_x = 4 ∧
    (estimate_position { camera_id := "c", x := 0, y := 0, heading_deg := 0 }
      ⟨320 - 27.2 * Real.sqrt 3, 240 - 68 * Real.sqrt 3,
       320 + 27.2 * Real.sqrt 3, 240 + 68 * Real.sqrt 3⟩ 1.7).world_y = 0 := by
  have hS : Real.sqrt (((4:ℝ) - 0) * (4 - 0) + ((0:ℝ) - 0) * (0 - 0)) = 4 := by
    rw [show ((4:ℝ) - 0) * (4 - 0) + ((0:ℝ) - 0) * (0 - 0) = 4 ^ 2 by norm_num]
    exact Real.sqrt_sq (by norm_num)
  have hg : is_in_fov { camera_id := "c", x := 0, y := 0, heading_deg := 0 } 4 0 8 =
      true := by
    unfold is_in_fov
    dsimp only
    rw [hS]
    rw [if_neg (by norm_num : ¬(4:ℝ) > 8), if_neg (by norm_num : ¬(4:ℝ) < 1e-6)]
    rw [show ((0:ℝ) - 0) = 0 by norm_num, show ((4:ℝ) - 0) = 4 by norm_num]
    rw [atan2_zero_of_pos 4 (by norm_num), radians_zero]
    rw [show (0:ℝ) - 0 + Real.pi = Real.pi by ring]
    rw [pymod_pi_two_pi, sub_self, abs_zero]
    have h30 : (0:ℝ) ≤ radians (60 / 2) := by
      unfold radians
      positivity
    exact decide_eq_true h30
  have hwb : world_to_bbox { camera_id := "c", x := 0, y := 0, heading_deg := 0 }
      4 0 1.7 =
      some ⟨320 - 27.2 * Real.sqrt 3, 240 - 68 * Real.sqrt 3,
            320 + 27.2 * Real.sqrt 3, 240 + 68 * Real.sqrt 3⟩ := by
    unfold world_to_bbox
    rw [hg]
    rw [if_pos rfl]
    dsimp only
    rw [hS, if_neg (by norm_num : ¬(4:ℝ) < 0.1)]
    rw [show ((0:ℝ) - 0) = 0 by norm_num, show ((4:ℝ) - 0) = 4 by norm_num]
    rw [atan2_zero_of_pos 4 (by norm_num), radians_zero]
    rw [show (0:ℝ) - 0 + Real.pi = Real.pi by ring]
    rw [pymod_pi_two_pi, sub_self, Real.tan_zero]
    unfold DEFAULT_IMAGE_WIDTH DEFAULT_IMAGE_HEIGHT DEFAULT_HFOV_DEG
    rw [focal_v_default]
    simp only [Option.some.injEq, Bbox.mk.injEq]
    refine ⟨by ring, by ring, by ring, by ring⟩
  have hd : (0.1:ℝ) ≤ Real.sqrt (((4:ℝ) - 0) * (4 - 0) + ((0:ℝ) - 0) * (0 - 0)) := by
    rw [hS]
    norm_num
  have hhpx : (1:ℝ) ≤ 1.7 * focal_length_px_vertical 640 480 60 /
      Real.sqrt (((4:ℝ) - 0) * (4 - 0) + ((0:ℝ) - 0) * (0 - 0)) := by
    rw [hS, focal_v_default]
    have h3 := sqrt_three_pos
    nlinarith [Real.mul_self_sqrt (show (0:ℝ) ≤ 3 by norm_num), Real.sqrt_nonneg 3]
  have h := estimate_world_round_trip
    { camera_id := "c", x := 0, y := 0, heading_deg := 0 } 4 0 1.7
    ⟨320 - 27.2 * Real.sqrt 3, 240 - 68 * Real.sqrt 3,
     320 + 27.2 * Real.sqrt 3, 240 + 68 * Real.sqrt 3⟩
    hwb hd (show (0:ℝ) < 60 by norm_num) (show (60:ℝ) < 180 by norm_num)
    (show (0:ℝ) < 640 by norm_num) (show (0:ℝ) < 480 by norm_num)
    (show (0:ℝ) < 1.7 by norm_num) hhpx
  exact ⟨hwb, h.1, h.2⟩

end ClaimC4Closed

section ClaimC4CE

open Fusion

/-- C4 counterexample: the default 640 x 480, 60-degree camera at the origin
with heading 0, world point (0.05, 0).  The point is strictly inside the FOV
and within range, so `world_to_bbox` returns a bbox — but its distance
0.05 m is inside the source's 0.1 m clamp: the bbox is rendered as if at
0.1 m, and the round trip through `estimate_position` lands at (0.1, 0),
an error of 0.05 m — far above the claimed 1e-3 m tolerance.  The claim's
FOV/range proviso does not exclude this point. -/
theorem round_trip_fails_inside_clamp :
    world_to_bbox { camera_id := "c", x := 0, y := 0, heading_deg := 0 } 0.05 0 1.7 =
      some ⟨320 - 1088 * Real.sqrt 3, 240 - 2720 * Real.sqrt 3,
            320 + 1088 * Real.sqrt 3, 240 + 2720 * Real.sqrt 3⟩ ∧
    (estimate_position { camera_id := "c", x := 0, y := 0, heading_deg := 0 }
      ⟨320 - 1088 * Real.sqrt 3, 240 - 2720 * Real.sqrt 3,
       320 + 1088 * Real.sqrt 3, 240 + 2720 * Real.sqrt 3⟩ 1.7).world_x = 0.1 ∧
    (estimate_position { camera_id := "c", x := 0, y := 0, heading_deg := 0 }
      ⟨320 - 1088 * Real.sqrt 3, 240 - 2720 * Real.sqrt 3,
       320 + 1088 * Real.sqrt 3, 240 + 2720 * Real.sqrt 3⟩ 1.7).world_y = 0 ∧
    |(0.1:ℝ) - 0.05| > 1e-3 := by
  have h3 := sqrt_three_pos
  have h3m := Real.mul_self_sqrt (show (0:ℝ) ≤ 3 by norm_num)
  have hS : Real.sqrt (((0.05:ℝ) - 0) * (0.05 - 0) + ((0:ℝ) - 0) * (0 - 0)) = 0.05 := by
    rw [show ((0.05:ℝ) - 0) * (0.05 - 0) + ((0:ℝ) - 0) * (0 - 0) = 0.05 ^ 2 by norm_num]
    exact Real.sqrt_sq (by norm_num)
  have hg : is_in_fov { camera_id := "c", x := 0, y := 0, heading_deg := 0 }
      0.05 0 8 = true := by
    unfold is_in_fov
    dsimp only
    rw [hS]
    rw [if_neg (by norm_num : ¬(0.05:ℝ) > 8), if_neg (by norm_num : ¬(0.05:ℝ) < 1e-6)]
    rw [show ((0:ℝ) - 0) = 0 by norm_num, show ((0.05:ℝ) - 0) = 0.05 by norm_num]
    rw [atan2_zero_of_pos 0.05 (by norm_num), radians_zero]
    rw [show (0:ℝ) - 0 + Real.pi = Real.pi by ring]
    rw [pymod_pi_two_pi, sub_self, abs_zero]
    have h30 : (0:ℝ) ≤ radians (60 / 2) := by
      unfold radians
      positivity
    exact decide_eq_true h30
  have hfh : 0 < focal_length_px 640 60 := by
    rw [focal_h_default]
    positivity
  refine ⟨?_, ?_, ?_, ?_⟩
  · unfold world_to_bbox
    rw [hg]
    rw [if_pos rfl]
    dsimp only
    rw [hS, if_pos (by norm_num : (0.05:ℝ) < 0.1)]
    rw [show ((0:ℝ) - 0) = 0 by norm_num, show ((0.05:ℝ) - 0) = 0.05 by norm_num]
    rw [atan2_zero_of_pos 0.05 (by norm_num), radians_zero]
    rw [show (0:ℝ) - 0 + Real.pi = Real.pi by ring]
    rw [pymod_pi_two_pi, sub_self, Real.tan_zero]
    unfold DEFAULT_IMAGE_WIDTH DEFAULT_IMAGE_HEIGHT DEFAULT_HFOV_DEG
    rw [focal_v_default]
    simp only [Option.some.injEq, Bbox.mk.injEq]
    refine ⟨by ring, by ring, by ring, by ring⟩
  · rw [estimate_position_world_x]
    dsimp only
    unfold DEFAULT_IMAGE_WIDTH DEFAULT_IMAGE_HEIGHT DEFAULT_HFOV_DEG
    rw [show (320 - 1088 * Real.sqrt 3 + (320 + 1088 * Real.sqrt 3)) / 2 -
        (640:ℝ) / 2 = 0 by ring]
    rw [neg_zero, atan2_zero_of_pos _ hfh, radians_zero, add_zero, Real.cos_zero,
      mul_one]
    rw [show (240:ℝ) + 2720 * Real.sqrt 3 - (240 - 2720 * Real.sqrt 3) =
        5440 * Real.sqrt 3 by ring]
    rw [abs_of_pos (by positivity : (0:ℝ) < 5440 * Real.sqrt 3)]
    rw [max_eq_left (by nlinarith : (1:ℝ) ≤ 5440 * Real.sqrt 3)]
    rw [focal_v_default]
    rw [zero_add, div_eq_iff (ne_of_gt (by positivity : (0:ℝ) < 5440 * Real.sqrt 3))]
    ring
  · rw [estimate_position_world_y]
    dsimp only
    unfold DEFAULT_IMAGE_WIDTH DEFAULT_IMAGE_HEIGHT DEFAULT_HFOV_DEG
    rw [show (320 - 1088 * Real.sqrt 3 + (320 + 1088 * Real.sqrt 3)) / 2 -
        (640:ℝ) / 2 = 0 by ring]
    rw [neg_zero, atan2_zero_of_pos _ hfh, radians_zero, add_zero, Real.sin_zero,
      mul_zero, add_zero]
  · rw [show (0.1:ℝ) - 0.05 = 0.05 by norm_num,
      abs_of_pos (by norm_num : (0:ℝ) < 0.05)]
    norm_num
end ClaimC4CE
